import Mathlib

/-!
Shallow embedding of the External Financial Data Access Layer of the
stock-analyst agent (source file: src/tools/api/alpha-vantage.ts), together
with theorems checking the specification's claims about caching, request
deduplication, rate limiting, retry policy, response parsing, sentiment
scoring and multi-symbol aggregation.

JavaScript numbers are modelled as `Option ℚ` with `none` in the role of
`NaN`; timestamps (`Date.now()`) are modelled as integers (milliseconds);
thrown exceptions are modelled with `Except`; the two HTTP providers are
modelled as oracle parameters supplying the outcome of each upstream call.
-/

namespace StockAnalyst

/-! ### JavaScript string/number primitives

`jsParseFloat` models `parseFloat` on optional-sign/digits/fraction inputs
(the provider payload strings in scope use no exponent or Infinity forms);
`jsParseInt` models `parseInt(s, 10)`.  Both return `none` for `NaN`.
-/

/-- JavaScript number: `none` is `NaN`. -/
abbrev JsNum := Option ℚ

/-- `String.prototype.toUpperCase` (symbols are ASCII tickers). -/
def jsToUpper (s : String) : String := String.mk (s.data.map Char.toUpper)

/-- `String.prototype.toLowerCase`. -/
def jsToLower (s : String) : String := String.mk (s.data.map Char.toLower)

def isJsSpace (c : Char) : Bool :=
  c == ' ' || c == '\t' || c == '\n' || c == '\r'

/-- Numeric value of a digit run (most significant first). -/
def digitsVal (ds : List Char) : ℕ :=
  ds.foldl (fun n c => 10 * n + (c.toNat - 48)) 0

/-- Character-level decomposition of a numeric literal: sign flag and the
integer/fraction digit runs. -/
structure FloatSplit where
  negative : Bool
  intDigits : List Char
  fracDigits : List Char
deriving DecidableEq

/-- The character-level phase of `parseFloat`: skip leading whitespace,
optional sign, integer digits, optional fraction digits; `none` (`NaN`)
when no digit is found. -/
def splitFloat (s : String) : Option FloatSplit :=
  let cs := s.data.dropWhile isJsSpace
  let signAndRest : Bool × List Char :=
    match cs with
    | '-' :: r => (true, r)
    | '+' :: r => (false, r)
    | _ => (false, cs)
  let body := signAndRest.2
  let intDigits := body.takeWhile Char.isDigit
  let afterInt := body.dropWhile Char.isDigit
  let fracDigits : List Char :=
    match afterInt with
    | '.' :: r => r.takeWhile Char.isDigit
    | _ => []
  if intDigits.isEmpty && fracDigits.isEmpty then none
  else some ⟨signAndRest.1, intDigits, fracDigits⟩

/-- The numeric value of a decomposed literal. -/
def floatValue (d : FloatSplit) : ℚ :=
  (if d.negative then -1 else 1) *
    ((digitsVal d.intDigits : ℚ) +
      (digitsVal d.fracDigits : ℚ) / (10 ^ d.fracDigits.length))

/-- `parseFloat` (sign/digits/fraction inputs). -/
def jsParseFloat (s : String) : JsNum := (splitFloat s).map floatValue

/-- `parseFloat` applied to a possibly-`undefined` value
(`parseFloat(undefined)` is `NaN`). -/
def jsParseFloatOpt (s : Option String) : JsNum :=
  match s with
  | none => none
  | some v => jsParseFloat v

/-- The character-level phase of `parseInt(s, 10)`: skip leading
whitespace, optional sign, integer digits only. -/
def splitInt (s : String) : Option (Bool × List Char) :=
  let cs := s.data.dropWhile isJsSpace
  let signAndRest : Bool × List Char :=
    match cs with
    | '-' :: r => (true, r)
    | '+' :: r => (false, r)
    | _ => (false, cs)
  let intDigits := signAndRest.2.takeWhile Char.isDigit
  if intDigits.isEmpty then none
  else some (signAndRest.1, intDigits)

/-- `parseInt(s, 10)`: `NaN` when no digit is found. -/
def jsParseInt (s : String) : JsNum :=
  (splitInt s).map (fun d =>
    (if d.1 then -1 else 1) * (digitsVal d.2 : ℚ))

/-- `parseInt(s, 10)` on a possibly-`undefined` value. -/
def jsParseIntOpt (s : Option String) : JsNum :=
  match s with
  | none => none
  | some v => jsParseInt v

def includesAux (w : List Char) : List Char → Bool
  | [] => w.isPrefixOf []
  | c :: rest => w.isPrefixOf (c :: rest) || includesAux w rest

/-- `String.prototype.includes`: `t.includes w` is substring containment. -/
def jsIncludes (t w : String) : Bool := includesAux w.data t.data

/-- JavaScript `x || d` for a possibly-`NaN` number: `NaN` and `0` are
falsy, so `parseFloat(v) || 0` collapses `NaN` to `0` (and keeps `0`). -/
def jsOrZero (x : JsNum) : ℚ := x.getD 0

/-- JavaScript `x || d` for a possibly-`undefined` string: `undefined` and
`""` are falsy. -/
def jsStrOr (x : Option String) (d : String) : String :=
  match x with
  | none => d
  | some s => if s = "" then d else s

/-! ### Cache store (module-level maps, lines 24–32 and 55–61)

`CachedData` is the `{ data, cachedAt }` entry shape; a cache is a map from
string key to entry.  `isCacheValid` is the shared 5-minute freshness check;
the news cache uses an inline 15-minute check (lines 461–469).
-/

def CACHE_TTL_MS : ℤ := 5 * 60 * 1000

def NEWS_CACHE_TTL_MS : ℤ := 15 * 60 * 1000

def RATE_LIMIT_DELAY_MS : ℤ := 12000

structure CachedData (α : Type) where
  data : α
  cachedAt : ℤ
deriving DecidableEq

/-- A per-kind in-memory cache map. -/
def Cache (α : Type) : Type := String → Option (CachedData α)

def emptyCache {α : Type} : Cache α := fun _ => none

def cacheSet {α : Type} (cache : Cache α) (key : String)
    (entry : CachedData α) : Cache α :=
  fun k => if k = key then some entry else cache k

def cacheErase {α : Type} (cache : Cache α) (key : String) : Cache α :=
  fun k => if k = key then none else cache k

/-- `isCacheValid` (lines 58–61); `now` is `Date.now()`. -/
def isCacheValid {α : Type} (now : ℤ) (cached : CachedData α) : Bool :=
  decide (now - cached.cachedAt < CACHE_TTL_MS)

/-- The `cached && isCacheValid(cached)` lookup phase shared by the quote,
metrics and individual-indicator fetches. -/
def cacheLookup {α : Type} (cache : Cache α) (key : String) (now : ℤ) :
    Option α :=
  match cache key with
  | some cached => if isCacheValid now cached then some cached.data else none
  | none => none

/-- The inline news-cache lookup (lines 462–469): 15-minute TTL. -/
def newsCacheLookup {α : Type} (cache : Cache α) (key : String) (now : ℤ) :
    Option α :=
  match cache key with
  | some cached =>
    if decide (now - cached.cachedAt < NEWS_CACHE_TTL_MS) then
      some cached.data
    else none
  | none => none

/-! ### Response parsing (lines 63–94 and 166–196)

A raw JSON object is modelled as an association list of string fields;
a missing key is `undefined` (`none`).
-/

def getField (obj : List (String × String)) (key : String) : Option String :=
  (obj.find? (fun p => p.1 = key)).map (fun p => p.2)

/-- `String.prototype.replace('%', '')`: removes the first occurrence. -/
def removeFirstChar (c : Char) : List Char → List Char
  | [] => []
  | x :: xs => if x = c then xs else x :: removeFirstChar c xs

/-- Raw `GLOBAL_QUOTE` response: the `"Global Quote"` member, if present,
is a JSON object. -/
structure AlphaVantageQuoteResponse where
  globalQuote : Option (List (String × String))
deriving DecidableEq

/-- Canonical quote (the source field `open` is `openPrice` here since
`open` is a Lean keyword). -/
structure StockQuote where
  symbol : Option String
  price : JsNum
  change : JsNum
  changePercent : JsNum
  high : JsNum
  low : JsNum
  openPrice : JsNum
  previousClose : JsNum
  volume : JsNum
  timestamp : Option String
deriving DecidableEq

/-- `parseQuoteResponse` (lines 75–94).  Accessing
`globalQuote["10. change percent"].replace(...)` on a missing key throws a
`TypeError`; every other field is read with plain (undefined-tolerant)
access and numeric coercion via `parseFloat`/`parseInt`. -/
def parseQuoteResponse (response : AlphaVantageQuoteResponse) :
    Except String StockQuote :=
  match response.globalQuote with
  | none => .error "Invalid symbol or no data returned from Alpha Vantage"
  | some globalQuote =>
    if globalQuote.length = 0 then
      .error "Invalid symbol or no data returned from Alpha Vantage"
    else
      match getField globalQuote "10. change percent" with
      | none => .error "TypeError: cannot read replace of undefined"
      | some changePercentRaw =>
        .ok {
          symbol := getField globalQuote "01. symbol"
          price := jsParseFloatOpt (getField globalQuote "05. price")
          change := jsParseFloatOpt (getField globalQuote "09. change")
          changePercent :=
            jsParseFloat (String.mk (removeFirstChar '%' changePercentRaw.data))
          high := jsParseFloatOpt (getField globalQuote "03. high")
          low := jsParseFloatOpt (getField globalQuote "04. low")
          openPrice := jsParseFloatOpt (getField globalQuote "02. open")
          previousClose := jsParseFloatOpt (getField globalQuote "08. previous close")
          volume := jsParseIntOpt (getField globalQuote "06. volume")
          timestamp := getField globalQuote "07. latest trading day"
        }

/-- `parseFloatOrNull` (lines 66–70); `undefined`, `""`, `"None"` and `"-"`
are mapped to `null`, as is an unparseable (`NaN`) value. -/
def parseFloatOrNull (value : Option String) : Option ℚ :=
  match value with
  | none => none
  | some v =>
    if v = "" ∨ v = "None" ∨ v = "-" then none
    else jsParseFloat v

/-- Raw `OVERVIEW` response fields used by the parser. -/
structure AlphaVantageOverviewResponse where
  Symbol : Option String
  Name : Option String
  MarketCapitalization : Option String
  PERatio : Option String
  PEGRatio : Option String
  BookValue : Option String
  DividendYield : Option String
  EPS : Option String
  RevenuePerShareTTM : Option String
  ProfitMargin : Option String
  OperatingMarginTTM : Option String
  ReturnOnAssetsTTM : Option String
  ReturnOnEquityTTM : Option String
  Beta : Option String
  week52High : Option String
  week52Low : Option String
  AnalystTargetPrice : Option String
  Sector : Option String
  Industry : Option String
deriving DecidableEq

structure FinancialMetrics where
  symbol : String
  name : Option String
  marketCap : ℚ
  peRatio : Option ℚ
  pegRatio : Option ℚ
  bookValue : Option ℚ
  dividendYield : Option ℚ
  eps : Option ℚ
  revenuePerShare : Option ℚ
  profitMargin : Option ℚ
  operatingMargin : Option ℚ
  returnOnAssets : Option ℚ
  returnOnEquity : Option ℚ
  debtToEquity : Option ℚ
  currentRatio : Option ℚ
  beta : Option ℚ
  fiftyTwoWeekHigh : ℚ
  fiftyTwoWeekLow : ℚ
  analystTargetPrice : Option ℚ
  sector : String
  industry : String
deriving DecidableEq

/-- `parseOverviewResponse` (lines 168–196).  `!response.Symbol` rejects a
missing or empty symbol; `marketCap` and the 52-week bounds use
`parseFloat(...) || 0`, the ratio fields use `parseFloatOrNull`. -/
def parseOverviewResponse (response : AlphaVantageOverviewResponse) :
    Except String FinancialMetrics :=
  match response.Symbol with
  | none => .error "Invalid company overview data"
  | some sym =>
    if sym = "" then .error "Invalid company overview data"
    else
      .ok {
        symbol := sym
        name := response.Name
        marketCap := jsOrZero (jsParseFloatOpt response.MarketCapitalization)
        peRatio := parseFloatOrNull response.PERatio
        pegRatio := parseFloatOrNull response.PEGRatio
        bookValue := parseFloatOrNull response.BookValue
        dividendYield := parseFloatOrNull response.DividendYield
        eps := parseFloatOrNull response.EPS
        revenuePerShare := parseFloatOrNull response.RevenuePerShareTTM
        profitMargin := parseFloatOrNull response.ProfitMargin
        operatingMargin := parseFloatOrNull response.OperatingMarginTTM
        returnOnAssets := parseFloatOrNull response.ReturnOnAssetsTTM
        returnOnEquity := parseFloatOrNull response.ReturnOnEquityTTM
        debtToEquity := none
        currentRatio := none
        beta := parseFloatOrNull response.Beta
        fiftyTwoWeekHigh := jsOrZero (jsParseFloatOpt response.week52High)
        fiftyTwoWeekLow := jsOrZero (jsParseFloatOpt response.week52Low)
        analystTargetPrice := parseFloatOrNull response.AnalystTargetPrice
        sector := jsStrOr response.Sector "N/A"
        industry := jsStrOr response.Industry "N/A"
      }

/-! ### Sentiment scorer (lines 428–452) -/

inductive Sentiment
  | positive
  | negative
  | neutral
deriving DecidableEq

def positiveWords : List String :=
  ["surge", "gain", "profit", "growth", "bullish", "strong", "beat",
   "exceed", "positive", "up", "rise", "high", "buy", "upgrade"]

def negativeWords : List String :=
  ["loss", "decline", "weak", "bearish", "miss", "below", "negative",
   "down", "fall", "low", "sell", "downgrade", "concern"]

/-- The raw integer tally: `+1` per positive keyword contained in the
lowercased text, `-1` per negative keyword (each keyword tested once). -/
def sentimentRawScore (text : String) : ℤ :=
  let lowerText := jsToLower text
  let s1 := positiveWords.foldl
    (fun s word => if jsIncludes lowerText word then s + 1 else s) (0 : ℤ)
  negativeWords.foldl
    (fun s word => if jsIncludes lowerText word then s - 1 else s) s1

/-- `analyzeSentiment` (lines 428–452): tally normalized by 5, clamped to
`[-1, 1]`; label thresholds at `±0.2`. -/
def analyzeSentiment (text : String) : Sentiment × ℚ :=
  let score := sentimentRawScore text
  let normalizedScore : ℚ := max (-1) (min 1 ((score : ℚ) / 5))
  let sentiment : Sentiment :=
    if normalizedScore > 1/5 then .positive
    else if normalizedScore < -(1/5) then .negative
    else .neutral
  (sentiment, normalizedScore)

/-! ### Fetch with cache, rate limiting and retry
(`fetchStockQuote`, lines 99–163; `fetchFinancialMetrics`, lines 201–263)

The two functions have the same shape and differ only in the cache used,
the parser, and the not-found message; `retryFetchGo` captures that shape
and is instantiated twice.  The oracle `outcomes n` is the outcome of the
`n`-th upstream HTTP attempt of the logical call and `times n` is
`Date.now()` at the start of the `n`-th attempt.  A retry re-invokes the
whole operation (line 148: `return fetchStockQuote(symbol, retries - 1)`),
so the cache lookup and the `respectRateLimit()` acquisition (line 114) are
re-executed on every attempt; `rateLimitAcquires` counts the acquisitions
and `upstreamCalls` the `axios.get` calls.
-/

inductive HttpOutcome (ρ : Type)
  | ok (response : ρ)
  | noResponse
  | httpStatus (status : ℕ)
deriving DecidableEq

inductive FetchError
  | configError (message : String)
  | notFound (message : String)
  | apiError
  | thrownError (message : String)
deriving DecidableEq

structure FetchRunResult (α : Type) where
  result : Except FetchError α
  cache : Cache α
  rateLimitAcquires : ℕ
  upstreamCalls : ℕ

/-- Error formatting after the retry check (lines 153–159). -/
def formatAxiosError (notFoundOf : String → FetchError) (upperSymbol : String)
    (status : ℕ) : FetchError :=
  if status = 404 then notFoundOf upperSymbol else .apiError

/-- The shared body of `fetchStockQuote` / `fetchFinancialMetrics`.  The
`retries > 0` test of the source is rendered as a match on `retries`. -/
def retryFetchGo {ρ α : Type} (parse : ρ → Except String α)
    (notFoundOf : String → FetchError) (apiKeySet : Bool)
    (times : ℕ → ℤ) (outcomes : ℕ → HttpOutcome ρ) (symbol : String)
    (cache : Cache α) : ℕ → ℕ → FetchRunResult α
  | attempt, retries =>
    let upperSymbol := jsToUpper symbol
    match cacheLookup cache upperSymbol (times attempt) with
    | some data => ⟨.ok data, cache, 0, 0⟩
    | none =>
      if apiKeySet = false then
        ⟨.error (.configError "API key not set in environment variables"),
          cache, 0, 0⟩
      else
        -- respectRateLimit() is awaited here, then the axios.get call made
        match outcomes attempt with
        | .ok response =>
          match parse response with
          | .ok value =>
            ⟨.ok value, cacheSet cache upperSymbol ⟨value, times attempt⟩, 1, 1⟩
          | .error msg => ⟨.error (.thrownError msg), cache, 1, 1⟩
        | .noResponse =>
          match retries with
          | r + 1 =>
            let rest := retryFetchGo parse notFoundOf apiKeySet times outcomes
              symbol cache (attempt + 1) r
            ⟨rest.result, rest.cache, rest.rateLimitAcquires + 1,
              rest.upstreamCalls + 1⟩
          | 0 => ⟨.error .apiError, cache, 1, 1⟩
        | .httpStatus status =>
          match retries with
          | r + 1 =>
            if 500 ≤ status then
              let rest := retryFetchGo parse notFoundOf apiKeySet times outcomes
                symbol cache (attempt + 1) r
              ⟨rest.result, rest.cache, rest.rateLimitAcquires + 1,
                rest.upstreamCalls + 1⟩
            else
              ⟨.error (formatAxiosError notFoundOf upperSymbol status),
                cache, 1, 1⟩
          | 0 =>
            ⟨.error (formatAxiosError notFoundOf upperSymbol status),
              cache, 1, 1⟩

/-- `fetchStockQuote` (lines 99–163), with `retries = 3` as in the source
default; attempts are numbered from 0. -/
def fetchStockQuote (apiKeySet : Bool) (times : ℕ → ℤ)
    (outcomes : ℕ → HttpOutcome AlphaVantageQuoteResponse) (symbol : String)
    (cache : Cache StockQuote) (retries : ℕ := 3) : FetchRunResult StockQuote :=
  retryFetchGo parseQuoteResponse
    (fun s => .notFound ("Stock symbol \"" ++ s ++ "\" not found"))
    apiKeySet times outcomes symbol cache 0 retries

/-- `fetchFinancialMetrics` (lines 201–263). -/
def fetchFinancialMetrics (apiKeySet : Bool) (times : ℕ → ℤ)
    (outcomes : ℕ → HttpOutcome AlphaVantageOverviewResponse) (symbol : String)
    (cache : Cache FinancialMetrics) (retries : ℕ := 3) :
    FetchRunResult FinancialMetrics :=
  retryFetchGo parseOverviewResponse
    (fun s => .notFound ("Financial data for \"" ++ s ++ "\" not found"))
    apiKeySet times outcomes symbol cache 0 retries

/-! ### News sentiment (`fetchNewsSentiment`, lines 457–546) -/

structure RawNewsArticle where
  title : Option String
  description : Option String
  sourceName : String
  url : String
  publishedAt : String
deriving DecidableEq

structure NewsArticle where
  title : String
  description : String
  source : String
  url : String
  publishedAt : String
  sentiment : Sentiment
  sentimentScore : ℚ
deriving DecidableEq

structure NewsSentiment where
  symbol : String
  articles : List NewsArticle
  overallSentiment : Sentiment
  sentimentScore : ℚ
  articleCount : ℕ
  timestamp : String
deriving DecidableEq

/-- JavaScript truthiness of a possibly-`undefined` string. -/
def jsTruthy (s : Option String) : Bool :=
  match s with
  | none => false
  | some v => !(v == "")

/-- The `.filter(title && description).map(analyzeSentiment ...)` pipeline
(lines 495–510). -/
def newsArticlesOf (raw : List RawNewsArticle) : List NewsArticle :=
  (raw.filter (fun a => jsTruthy a.title && jsTruthy a.description)).map
    (fun a =>
      let text := a.title.getD "" ++ " " ++ jsStrOr a.description ""
      let scored := analyzeSentiment text
      { title := a.title.getD ""
        description := a.description.getD ""
        source := a.sourceName
        url := a.url
        publishedAt := a.publishedAt
        sentiment := scored.1
        sentimentScore := scored.2 })

/-- Overall sentiment: arithmetic mean of article scores, same ±0.2
thresholds (lines 512–519). -/
def overallOf (articles : List NewsArticle) : Sentiment × ℚ :=
  let totalScore := (articles.map (fun a => a.sentimentScore)).sum
  let avgScore : ℚ :=
    if articles.length > 0 then totalScore / (articles.length : ℚ) else 0
  let overallSentiment : Sentiment :=
    if avgScore > 1/5 then .positive
    else if avgScore < -(1/5) then .negative
    else .neutral
  (overallSentiment, avgScore)

/-- Outcome of the news-provider HTTP call for a given `pageSize`. -/
inductive NewsApiOutcome
  | ok (statusOk : Bool) (articles : List RawNewsArticle)
  | failure
deriving DecidableEq

/-- `fetchNewsSentiment` (lines 457–546).  The cache key is
`upperSymbol + "-news"` (line 459) — the `limit` parameter is not part of
the key; `newsEnv pageSize` is the provider response for that page size. -/
def fetchNewsSentiment (newsKeySet : Bool) (now : ℤ)
    (newsEnv : ℕ → NewsApiOutcome) (ts : String) (cache : Cache NewsSentiment)
    (symbol : String) (limit : ℕ := 10) :
    Except FetchError NewsSentiment × Cache NewsSentiment :=
  let upperSymbol := jsToUpper symbol
  let cacheKey := upperSymbol ++ "-news"
  match newsCacheLookup cache cacheKey now with
  | some data => (.ok data, cache)
  | none =>
    if newsKeySet = false then
      (.error (.configError "NEWS_API_KEY not set in environment variables"),
        cache)
    else
      match newsEnv limit with
      | .failure => (.error .apiError, cache)
      | .ok statusOk raw =>
        if statusOk = false then
          (.error (.thrownError "News API returned error status"), cache)
        else
          let articles := newsArticlesOf raw
          let overall := overallOf articles
          let result : NewsSentiment :=
            { symbol := upperSymbol
              articles := articles
              overallSentiment := overall.1
              sentimentScore := overall.2
              articleCount := articles.length
              timestamp := ts }
          (.ok result, cacheSet cache cacheKey ⟨result, now⟩)

/-! ### Aggregators (`compareStocks`, lines 551–592;
`fetchTechnicalIndicators`, lines 387–422)

The per-symbol / per-indicator fetches are abstracted as deterministic
oracles giving each underlying fetch's outcome (`none` / `.error` = the
promise rejected and the `catch` skips the item).
-/

structure ComparisonEntry where
  price : JsNum
  change : JsNum
  changePercent : JsNum
  marketCap : ℚ
  peRatio : Option ℚ
  eps : Option ℚ
  profitMargin : Option ℚ
  beta : Option ℚ
deriving DecidableEq

structure StockComparison where
  symbols : List String
  metrics : String → Option ComparisonEntry
  timestamp : String

/-- The reduced record stored per successfully resolved symbol
(lines 568–577). -/
def comparisonEntryOf (quote : StockQuote) (financial : FinancialMetrics) :
    ComparisonEntry :=
  { price := quote.price
    change := quote.change
    changePercent := quote.changePercent
    marketCap := financial.marketCap
    peRatio := financial.peRatio
    eps := financial.eps
    profitMargin := financial.profitMargin
    beta := financial.beta }

/-- `compareStocks` (lines 551–592): fans out over the uppercased symbols;
a symbol whose quote or fundamentals fetch rejects is skipped by the
per-symbol `catch`.  The `metrics` object is modelled as a map; since the
per-symbol result depends only on the symbol, the completion order of the
parallel branches does not affect the final map, so they are folded in
list order. -/
def compareStocks (envQuote : String → Option StockQuote)
    (envMetrics : String → Option FinancialMetrics) (ts : String)
    (symbols : List String) : StockComparison :=
  let upperSymbols := symbols.map jsToUpper
  let metrics := upperSymbols.foldl
    (fun m symbol =>
      match envQuote symbol, envMetrics symbol with
      | some quote, some financial =>
        fun k => if k = symbol then some (comparisonEntryOf quote financial)
                 else m k
      | _, _ => m)
    (fun _ => none)
  { symbols := upperSymbols, metrics := metrics, timestamp := ts }

inductive IndicatorKind
  | SMA50
  | SMA200
  | RSI
  | MACD
deriving DecidableEq

structure MacdValue where
  macd : JsNum
  signal : JsNum
  histogram : JsNum
deriving DecidableEq

/-- An individual indicator value as produced by `fetchSingleIndicator`
(a number for SMA/RSI, a record for MACD; `parseFloat` may give `NaN`). -/
inductive IndicatorValue
  | num (value : JsNum)
  | macdRecord (value : MacdValue)
deriving DecidableEq

structure IndicatorsRecord where
  sma50 : Option IndicatorValue := none
  sma200 : Option IndicatorValue := none
  rsi : Option IndicatorValue := none
  macd : Option IndicatorValue := none
deriving DecidableEq

structure TechnicalIndicators where
  symbol : String
  indicators : IndicatorsRecord
  timestamp : String
deriving DecidableEq

/-- The per-kind field assignment (lines 409–412). -/
def setIndicator (r : IndicatorsRecord) (k : IndicatorKind)
    (v : IndicatorValue) : IndicatorsRecord :=
  match k with
  | .SMA50 => { r with sma50 := some v }
  | .SMA200 => { r with sma200 := some v }
  | .RSI => { r with rsi := some v }
  | .MACD => { r with macd := some v }

def getIndicator (r : IndicatorsRecord) (k : IndicatorKind) :
    Option IndicatorValue :=
  match k with
  | .SMA50 => r.sma50
  | .SMA200 => r.sma200
  | .RSI => r.rsi
  | .MACD => r.macd

/-- `fetchTechnicalIndicators` (lines 387–422).  `env k` abstracts
`fetchSingleIndicator(upperSymbol, k)`: `.error` = the promise rejected
(caught, the indicator skipped), `.ok none` = it resolved to `undefined`
(skipped), `.ok (some v)` = a value (assigned to the kind's field). -/
def fetchTechnicalIndicators (apiKeySet : Bool)
    (env : IndicatorKind → Except Unit (Option IndicatorValue)) (ts : String)
    (symbol : String) (indicators : List IndicatorKind) :
    Except FetchError TechnicalIndicators :=
  let upperSymbol := jsToUpper symbol
  if apiKeySet = false then
    .error (.configError "ALPHA_VANTAGE_API_KEY not set in environment variables")
  else
    let record := indicators.foldl
      (fun r indicator =>
        match env indicator with
        | .ok (some value) => setIndicator r indicator value
        | .ok none => r
        | .error _ => r)
      {}
    .ok { symbol := upperSymbol, indicators := record, timestamp := ts }

/-! ### Cooperative-interleaving model of the concurrent fetches

Execution is single-threaded and cooperatively scheduled: a logical step
runs atomically up to its next `await`.  Both machines below model all
callers of one fetch operation for one fixed key (entries of the registry
and caches under other keys do not interact with this key).

Machine `D` models `fetchSingleIndicator` (lines 271–382), which uses the
`inflightRequests` single-flight registry: a caller's first step runs the
cache lookup, the registry lookup and — when both miss — the creation *and
registration* of the fetch task (the async body runs synchronously up to
its first `await`, so registration happens before any other task can run).
The task then has two suspension points: the `respectRateLimit()` wait and
the `axios.get` call; when the response arrives it caches a defined value,
the `finally` block deletes the registry entry, and the promise settles,
releasing every waiter with the same settlement `res`.

Machine `Q` models the success path of `fetchStockQuote` (lines 99–137),
which has *no* registry: a caller that misses the cache proceeds directly
to its own rate-limit wait and its own upstream call.
-/

instance {ε α : Type} [DecidableEq ε] [DecidableEq α] :
    DecidableEq (Except ε α) := fun a b =>
  match a, b with
  | .ok x, .ok y =>
    if h : x = y then .isTrue (by rw [h]) else .isFalse (by simp [h])
  | .error x, .error y =>
    if h : x = y then .isTrue (by rw [h]) else .isFalse (by simp [h])
  | .ok _, .error _ => .isFalse (by simp)
  | .error _, .ok _ => .isFalse (by simp)

inductive DTask (V : Type)
  | atRateLimit
  | atHttp
  | settled (result : Except Unit (Option V))
deriving DecidableEq

inductive DCaller (V : Type)
  | start
  | waitingOn (tid : ℕ)
  | done (result : Except Unit (Option V))
deriving DecidableEq

structure DState (V : Type) where
  cache : Option V
  inflight : Option ℕ
  tasks : List (DTask V)
  callers : List (DCaller V)
  upstreamCalls : ℕ
  registryDeletes : ℕ
deriving DecidableEq

inductive DAction
  | caller (i : ℕ)
  | task (t : ℕ)
deriving DecidableEq

/-- One scheduler step of machine `D`; `res` is the settlement the single
upstream HTTP exchange would produce (`.ok (some v)` = a value, `.ok none`
= resolved `undefined`, `.error` = the request threw).  An action that is
not enabled is a stutter. -/
def dStep {V : Type} (res : Except Unit (Option V)) (s : DState V) :
    DAction → DState V
  | .caller i =>
    match s.callers[i]? with
    | some .start =>
      match s.cache with
      | some v => { s with callers := s.callers.set i (.done (.ok (some v))) }
      | none =>
        match s.inflight with
        | some t => { s with callers := s.callers.set i (.waitingOn t) }
        | none =>
          let tid := s.tasks.length
          { s with tasks := s.tasks ++ [.atRateLimit]
                   inflight := some tid
                   callers := s.callers.set i (.waitingOn tid) }
    | some (.waitingOn t) =>
      match s.tasks[t]? with
      | some (.settled r) => { s with callers := s.callers.set i (.done r) }
      | _ => s
    | _ => s
  | .task t =>
    match s.tasks[t]? with
    | some .atRateLimit =>
      { s with tasks := s.tasks.set t .atHttp
               upstreamCalls := s.upstreamCalls + 1 }
    | some .atHttp =>
      { s with cache := match res with
                        | .ok (some v) => some v
                        | _ => s.cache
               inflight := none
               registryDeletes := s.registryDeletes + 1
               tasks := s.tasks.set t (.settled res) }
    | _ => s

def dInit (V : Type) (K : ℕ) : DState V :=
  ⟨none, none, [], List.replicate K .start, 0, 0⟩

def dRun {V : Type} (res : Except Unit (Option V)) (init : DState V)
    (sched : List DAction) : DState V :=
  sched.foldl (dStep res) init

inductive QCaller (V : Type)
  | start
  | atRateLimit
  | atHttp
  | done (value : V)
deriving DecidableEq

structure QState (V : Type) where
  cache : Option V
  callers : List (QCaller V)
  upstreamCalls : ℕ
deriving DecidableEq

/-- One scheduler step of machine `Q` (caller `i` of `fetchStockQuote`,
success path): cache lookup, then the caller's own rate-limit wait, then
its own `axios.get` (counted), then parse-and-cache. -/
def qStep {V : Type} (v : V) (s : QState V) (i : ℕ) : QState V :=
  match s.callers[i]? with
  | some .start =>
    match s.cache with
    | some cachedValue =>
      { s with callers := s.callers.set i (.done cachedValue) }
    | none => { s with callers := s.callers.set i .atRateLimit }
  | some .atRateLimit =>
    { s with callers := s.callers.set i .atHttp
             upstreamCalls := s.upstreamCalls + 1 }
  | some .atHttp =>
    { s with cache := some v, callers := s.callers.set i (.done v) }
  | _ => s

def qInit (V : Type) (K : ℕ) : QState V :=
  ⟨none, List.replicate K .start, 0⟩

def qRun {V : Type} (v : V) (init : QState V) (sched : List ℕ) : QState V :=
  sched.foldl (qStep v) init

/-! ### Derived definitions used by the statements -/

/-- The positive keywords contained in the lowercased text. -/
def posMatches (t : String) : List String :=
  positiveWords.filter (fun w => jsIncludes (jsToLower t) w)

/-- The negative keywords contained in the lowercased text. -/
def negMatches (t : String) : List String :=
  negativeWords.filter (fun w => jsIncludes (jsToLower t) w)

def DTask.isSettled {V : Type} : DTask V → Bool
  | .settled _ => true
  | _ => false

def DCaller.isDone {V : Type} : DCaller V → Bool
  | .done _ => true
  | _ => false

def QCaller.isDone {V : Type} : QCaller V → Bool
  | .done _ => true
  | _ => false

/-- 1 for a task that has issued its `axios.get` call. -/
def callWeight {V : Type} : DTask V → ℕ
  | .atRateLimit => 0
  | _ => 1

def settledWeight {V : Type} : DTask V → ℕ
  | .settled _ => 1
  | _ => 0

/-- A transient failure in the sense of the retry policy (line 145):
no HTTP response at all, or a provider 5xx. -/
def HttpOutcome.isTransient {ρ : Type} : HttpOutcome ρ → Prop
  | .ok _ => False
  | .noResponse => True
  | .httpStatus status => 500 ≤ status

/-! ### Concrete sample payloads used by witnesses and counterexamples -/

/-- A well-formed `GLOBAL_QUOTE` payload. -/
def sampleQuoteObj : List (String × String) :=
  [("01. symbol", "AAPL"), ("02. open", "1"), ("03. high", "1"),
   ("04. low", "1"), ("05. price", "1"), ("06. volume", "1"),
   ("07. latest trading day", "2024-01-01"), ("08. previous close", "1"),
   ("09. change", "0"), ("10. change percent", "0%")]

def sampleQuoteResp : AlphaVantageQuoteResponse := ⟨some sampleQuoteObj⟩

/-- The quote `parseQuoteResponse` produces from `sampleQuoteResp`. -/
def sampleQuote : StockQuote :=
  { symbol := some "AAPL", price := jsParseFloat "1", change := jsParseFloat "0",
    changePercent := jsParseFloat "0", high := jsParseFloat "1",
    low := jsParseFloat "1", openPrice := jsParseFloat "1",
    previousClose := jsParseFloat "1", volume := jsParseInt "1",
    timestamp := some "2024-01-01" }

/-- A `GLOBAL_QUOTE` payload whose required numeric fields are
unparseable strings. -/
def badQuoteObj : List (String × String) :=
  [("01. symbol", "AAPL"), ("02. open", "abc"), ("03. high", "abc"),
   ("04. low", "abc"), ("05. price", "abc"), ("06. volume", "xyz"),
   ("07. latest trading day", "2024-01-01"), ("08. previous close", "abc"),
   ("09. change", "abc"), ("10. change percent", "abc%")]

def badQuoteResp : AlphaVantageQuoteResponse := ⟨some badQuoteObj⟩

/-- The quote `parseQuoteResponse` produces from `badQuoteResp`: every
numeric field is `NaN`. -/
def badQuote : StockQuote :=
  { symbol := some "AAPL", price := none, change := none,
    changePercent := none, high := none, low := none, openPrice := none,
    previousClose := none, volume := none, timestamp := some "2024-01-01" }

/-- An `OVERVIEW` payload with `"MarketCapitalization": "None"`. -/
def sampleOverview : AlphaVantageOverviewResponse :=
  { Symbol := some "AAPL", Name := some "Apple Inc"
    MarketCapitalization := some "None"
    PERatio := some "31.5", PEGRatio := some "None", BookValue := some "-"
    DividendYield := none, EPS := some "1", RevenuePerShareTTM := some "1"
    ProfitMargin := some "1", OperatingMarginTTM := some "1"
    ReturnOnAssetsTTM := some "1", ReturnOnEquityTTM := some "1"
    Beta := some "1", week52High := some "2", week52Low := some "1"
    AnalystTargetPrice := some "None"
    Sector := some "Technology", Industry := some "Consumer Electronics" }

/-- The metrics `parseOverviewResponse` produces from `sampleOverview`:
the absent market capitalization is coerced to `0`, not `null`. -/
def sampleMetrics : FinancialMetrics :=
  { symbol := "AAPL", name := some "Apple Inc"
    marketCap := 0
    peRatio := jsParseFloat "31.5", pegRatio := none, bookValue := none
    dividendYield := none, eps := jsParseFloat "1"
    revenuePerShare := jsParseFloat "1", profitMargin := jsParseFloat "1"
    operatingMargin := jsParseFloat "1", returnOnAssets := jsParseFloat "1"
    returnOnEquity := jsParseFloat "1", debtToEquity := none
    currentRatio := none, beta := jsParseFloat "1"
    fiftyTwoWeekHigh := jsOrZero (jsParseFloat "2")
    fiftyTwoWeekLow := jsOrZero (jsParseFloat "1")
    analystTargetPrice := none
    sector := "Technology", industry := "Consumer Electronics" }

/-- An upstream-outcome oracle: one network failure, then success. -/
def sampleOutcomes : ℕ → HttpOutcome AlphaVantageQuoteResponse :=
  fun n => if n = 0 then .noResponse else .ok sampleQuoteResp

/-- A one-entry quote cache holding `sampleQuote` captured at time 0. -/
def sampleCache : Cache StockQuote :=
  fun k => if k = "AAPL" then some ⟨sampleQuote, 0⟩ else none

/-- An upstream-outcome oracle that always answers HTTP 404. -/
def notFoundOutcomes : ℕ → HttpOutcome AlphaVantageQuoteResponse :=
  fun _ => .httpStatus 404

/-- An upstream-outcome oracle that always returns an empty payload
(`"Global Quote": {}`), the invalid-symbol condition. -/
def emptyPayloadOutcomes : ℕ → HttpOutcome AlphaVantageQuoteResponse :=
  fun _ => .ok ⟨some []⟩

/-- An upstream-outcome oracle that never gets a response. -/
def downOutcomes : ℕ → HttpOutcome AlphaVantageQuoteResponse :=
  fun _ => .noResponse

/-- Per-symbol quote oracle failing exactly for `"NOTASYMBOL"`. -/
def comparisonEnvQuote : String → Option StockQuote :=
  fun s => if s = "NOTASYMBOL" then none else some sampleQuote

/-- Per-symbol fundamentals oracle failing exactly for `"NOTASYMBOL"`. -/
def comparisonEnvMetrics : String → Option FinancialMetrics :=
  fun s => if s = "NOTASYMBOL" then none else some sampleMetrics

/-- Indicator oracle: SMA50 and RSI succeed, MACD's upstream call fails,
SMA200 resolves to `undefined`. -/
def indicatorEnv : IndicatorKind → Except Unit (Option IndicatorValue) :=
  fun k =>
    match k with
    | .SMA50 => .ok (some (.num (some 1)))
    | .SMA200 => .ok none
    | .RSI => .ok (some (.num (some 2)))
    | .MACD => .error ()

def sampleRawArticle : RawNewsArticle :=
  ⟨some "Profit surge", some "Big gain", "src", "url", "2024-01-01"⟩

/-- News oracle for the first call (any page size yields one article). -/
def newsEnvOne : ℕ → NewsApiOutcome := fun _ => .ok true [sampleRawArticle]

/-- News oracle for the second call (would yield no articles). -/
def newsEnvEmpty : ℕ → NewsApiOutcome := fun _ => .ok true []

/-- The report `fetchNewsSentiment` builds from `newsEnvOne` for `"AAPL"`
at time 0 with timestamp `"ts1"`. -/
def sampleNews : NewsSentiment :=
  { symbol := "AAPL"
    articles := newsArticlesOf [sampleRawArticle]
    overallSentiment := (overallOf (newsArticlesOf [sampleRawArticle])).1
    sentimentScore := (overallOf (newsArticlesOf [sampleRawArticle])).2
    articleCount := (newsArticlesOf [sampleRawArticle]).length
    timestamp := "ts1" }

/-- Invariant of machine `D` that holds for any settlement outcome `res`:
the delete counter equals the number of settled tasks, the call counter
equals the number of tasks past their `axios.get`, the registry points at
a live (unsettled) task, every unsettled task is registered, every settled
task settled with `res`, and waiting callers wait on real tasks. -/
def DInvGen {V : Type} (res : Except Unit (Option V)) (s : DState V) : Prop :=
  s.registryDeletes = (s.tasks.map settledWeight).sum ∧
  s.upstreamCalls = (s.tasks.map callWeight).sum ∧
  (∀ t : ℕ, s.inflight = some t →
    ∃ tk : DTask V, s.tasks[t]? = some tk ∧ tk.isSettled = false) ∧
  (∀ (t : ℕ) (tk : DTask V), s.tasks[t]? = some tk → tk.isSettled = false →
    s.inflight = some t) ∧
  (∀ (t : ℕ) (r2 : Except Unit (Option V)),
    s.tasks[t]? = some (DTask.settled r2) → r2 = res) ∧
  (∀ i t : ℕ, s.callers[i]? = some (DCaller.waitingOn t) →
    t < s.tasks.length)

/-- Additional invariant of machine `D` when the upstream exchange
succeeds with value `v`: the cache only ever holds `v` and implies a
settlement, a settlement fills the cache, at most one task is ever
created, and a finished caller always got `.ok (some v)` and implies a
settlement. -/
def DInvOk {V : Type} (v : V) (s : DState V) : Prop :=
  (∀ w : V, s.cache = some w → w = v) ∧
  (∀ w : V, s.cache = some w →
    ∃ (t : ℕ) (r2 : Except Unit (Option V)),
      s.tasks[t]? = some (DTask.settled r2)) ∧
  ((∃ (t : ℕ) (r2 : Except Unit (Option V)),
      s.tasks[t]? = some (DTask.settled r2)) → s.cache = some v) ∧
  s.tasks.length ≤ 1 ∧
  (∀ (i : ℕ) (r2 : Except Unit (Option V)),
    s.callers[i]? = some (DCaller.done r2) → r2 = Except.ok (some v)) ∧
  (∀ (i : ℕ) (r2 : Except Unit (Option V)),
    s.callers[i]? = some (DCaller.done r2) →
    ∃ (t : ℕ) (r3 : Except Unit (Option V)),
      s.tasks[t]? = some (DTask.settled r3))

/-! ## Helper lemmas -/

theorem foldl_count_incr (p : String → Bool) (l : List String) : ∀ a : ℤ,
    l.foldl (fun s w => if p w then s + 1 else s) a =
      a + ((l.filter p).length : ℤ) := by
  induction l with
  | nil => intro a; simp
  | cons w l ih =>
    intro a
    by_cases h : p w
    · simp only [List.foldl_cons, h, if_true, List.filter_cons, ih,
        List.length_cons]
      push_cast
      ring
    · simp [List.foldl_cons, h, List.filter_cons, ih]

theorem foldl_count_decr (p : String → Bool) (l : List String) : ∀ a : ℤ,
    l.foldl (fun s w => if p w then s - 1 else s) a =
      a - ((l.filter p).length : ℤ) := by
  induction l with
  | nil => intro a; simp
  | cons w l ih =>
    intro a
    by_cases h : p w
    · simp only [List.foldl_cons, h, if_true, List.filter_cons, ih,
        List.length_cons]
      push_cast
      ring
    · simp [List.foldl_cons, h, List.filter_cons, ih]

theorem sentimentRawScore_eq (t : String) :
    sentimentRawScore t =
      ((posMatches t).length : ℤ) - ((negMatches t).length : ℤ) := by
  simp only [sentimentRawScore, posMatches, negMatches, foldl_count_incr,
    foldl_count_decr]
  ring

/-! ## Claim theorems -/

/-- C4 counterexample: a `GLOBAL_QUOTE` payload whose required numeric
fields hold the unparseable strings `"abc"` / `"xyz"` parses *successfully*
to a quote whose `price` and `volume` are `NaN` — the parser does not fail
with a hard error as the claim states. -/
theorem C4_counterexample :
    parseQuoteResponse badQuoteResp = .ok badQuote ∧
    badQuote.price = none ∧ badQuote.volume = none :=
  ⟨rfl, rfl, rfl⟩

/-- C4 (amended): the quote parser throws only for a missing or empty
`"Global Quote"` object (the invalid-symbol condition); a present but
unparseable required numeric field (price, volume) silently yields `NaN`
(modelled as `none`) rather than a hard error or a parse failure. -/
theorem C4_required_field_policy :
    (parseQuoteResponse ⟨none⟩ =
      .error "Invalid symbol or no data returned from Alpha Vantage") ∧
    (parseQuoteResponse ⟨some []⟩ =
      .error "Invalid symbol or no data returned from Alpha Vantage") ∧
    (∀ response gq q, response.globalQuote = some gq →
      parseQuoteResponse response = .ok q →
      q.price = jsParseFloatOpt (getField gq "05. price") ∧
      q.volume = jsParseIntOpt (getField gq "06. volume")) ∧
    jsParseFloat "abc" = none := by
  refine ⟨rfl, rfl, ?_, rfl⟩
  intro response gq q h1 h2
  simp only [parseQuoteResponse, h1] at h2
  split at h2
  · exact absurd h2 (by simp)
  · split at h2
    · exact absurd h2 (by simp)
    · rw [Except.ok.injEq] at h2
      subst h2
      exact ⟨rfl, rfl⟩

/-- C4 amended-theorem witness at the concrete bad payload. -/
theorem C4_required_field_policy_witness :
    badQuote.price = jsParseFloatOpt (getField badQuoteObj "05. price") ∧
    badQuote.volume = jsParseIntOpt (getField badQuoteObj "06. volume") :=
  C4_required_field_policy.2.2.1 badQuoteResp badQuoteObj badQuote rfl rfl

/-- C5 counterexample: an `OVERVIEW` payload with
`"MarketCapitalization": "None"` parses successfully with `marketCap = 0`:
the market-cap field maps the `"None"` sentinel to `0`, not to `null`
(its type is not even nullable), refuting the claim for market cap. -/
theorem C5_counterexample :
    parseOverviewResponse sampleOverview = .ok sampleMetrics ∧
    sampleMetrics.marketCap = 0 :=
  ⟨rfl, rfl⟩

/-- C5 (amended): the nullable-numeric convention (absent/`"None"`/`"-"`
parses to `null`, never zero; a parseable value parses to that number)
holds for the twelve optional ratio fields parsed via `parseFloatOrNull`
— but *not* for `marketCap` (nor the 52-week bounds), which coerce
absent/sentinel/unparseable values to `0` via `parseFloat(...) || 0`. -/
theorem C5_nullable_metrics :
    (∀ response m, parseOverviewResponse response = .ok m →
      m.peRatio = parseFloatOrNull response.PERatio ∧
      m.pegRatio = parseFloatOrNull response.PEGRatio ∧
      m.bookValue = parseFloatOrNull response.BookValue ∧
      m.dividendYield = parseFloatOrNull response.DividendYield ∧
      m.eps = parseFloatOrNull response.EPS ∧
      m.revenuePerShare = parseFloatOrNull response.RevenuePerShareTTM ∧
      m.profitMargin = parseFloatOrNull response.ProfitMargin ∧
      m.operatingMargin = parseFloatOrNull response.OperatingMarginTTM ∧
      m.returnOnAssets = parseFloatOrNull response.ReturnOnAssetsTTM ∧
      m.returnOnEquity = parseFloatOrNull response.ReturnOnEquityTTM ∧
      m.beta = parseFloatOrNull response.Beta ∧
      m.analystTargetPrice = parseFloatOrNull response.AnalystTargetPrice ∧
      m.marketCap = jsOrZero (jsParseFloatOpt response.MarketCapitalization)) ∧
    (∀ v, v = none ∨ v = some "" ∨ v = some "None" ∨ v = some "-" →
      parseFloatOrNull v = none) ∧
    parseFloatOrNull (some "31.5") = some (63/2) ∧
    jsOrZero (jsParseFloatOpt (some "None")) = 0 := by
  refine ⟨?_, ?_, ?_, rfl⟩
  · intro response m h
    simp only [parseOverviewResponse] at h
    split at h
    · exact absurd h (by simp)
    · split at h
      · exact absurd h (by simp)
      · rw [Except.ok.injEq] at h
        subst h
        exact ⟨rfl, rfl, rfl, rfl, rfl, rfl, rfl, rfl, rfl, rfl, rfl, rfl, rfl⟩
  · intro v h
    rcases h with h | h | h | h <;> subst h <;> simp [parseFloatOrNull]
  · show parseFloatOrNull (some "31.5") = some (63/2)
    simp only [parseFloatOrNull]
    rw [if_neg (by simp)]
    simp only [jsParseFloat,
      show splitFloat "31.5" = some ⟨false, ['3','1'], ['5']⟩ from rfl,
      Option.map]
    norm_num [floatValue, show digitsVal ['3','1'] = 31 from rfl,
      show digitsVal ['5'] = 5 from rfl]

/-- C5 amended-theorem witness at the concrete overview payload. -/
theorem C5_nullable_metrics_witness :
    sampleMetrics.peRatio = parseFloatOrNull sampleOverview.PERatio ∧
    sampleMetrics.pegRatio = parseFloatOrNull sampleOverview.PEGRatio ∧
    parseFloatOrNull (some "None") = none :=
  ⟨(C5_nullable_metrics.1 sampleOverview sampleMetrics rfl).1,
   (C5_nullable_metrics.1 sampleOverview sampleMetrics rfl).2.1,
   C5_nullable_metrics.2.1 (some "None") (Or.inr (Or.inr (Or.inl rfl)))⟩

/-- C6: the sentiment scorer is a pure function of its text: the raw tally
is `+1` per positive keyword present (case-insensitively, at most once per
keyword) and `-1` per negative keyword present; the score is the tally
divided by 5 and clamped to `[-1, 1]`; the label is `positive` iff the
score exceeds `0.2` and `negative` iff it is below `-0.2`; a text matching
exactly the positive keywords surge/gain/profit and no negative keyword
scores `0.6` with label `positive`, and a text matching two positive and
two negative keywords scores `0` with label `neutral`. -/
theorem C6_sentiment_scoring :
    (∀ t, sentimentRawScore t =
      ((posMatches t).length : ℤ) - ((negMatches t).length : ℤ)) ∧
    (∀ t, (analyzeSentiment t).2 =
      max (-1) (min 1 ((sentimentRawScore t : ℚ) / 5)) ∧
      ((analyzeSentiment t).1 = .positive ↔ (analyzeSentiment t).2 > 1/5) ∧
      ((analyzeSentiment t).1 = .negative ↔ (analyzeSentiment t).2 < -(1/5))) ∧
    (∀ t, posMatches t = ["surge", "gain", "profit"] → negMatches t = [] →
      analyzeSentiment t = (.positive, 3/5)) ∧
    (∀ t, (posMatches t).length = 2 → (negMatches t).length = 2 →
      analyzeSentiment t = (.neutral, 0)) := by
  refine ⟨sentimentRawScore_eq, ?_, ?_, ?_⟩
  · intro t
    refine ⟨rfl, ?_, ?_⟩
    · simp only [analyzeSentiment]
      split_ifs with h1 h2
      · exact iff_of_true rfl h1
      · exact iff_of_false (by simp) h1
      · exact iff_of_false (by simp) h1
    · simp only [analyzeSentiment]
      split_ifs with h1 h2
      · exact iff_of_false (by simp) (by linarith)
      · exact iff_of_true rfl h2
      · exact iff_of_false (by simp) h2
  · intro t hp hn
    have hraw : sentimentRawScore t = 3 := by
      rw [sentimentRawScore_eq, hp, hn]; rfl
    simp only [analyzeSentiment, hraw]
    norm_num
  · intro t hp hn
    have hraw : sentimentRawScore t = 0 := by
      rw [sentimentRawScore_eq, hp, hn]; rfl
    simp only [analyzeSentiment, hraw]
    norm_num

/-- C6 witness at the two concrete texts from the specification. -/
theorem C6_sentiment_scoring_witness :
    analyzeSentiment "surge gain profit" = (.positive, 3/5) ∧
    analyzeSentiment "gain profit loss decline" = (.neutral, 0) :=
  ⟨C6_sentiment_scoring.2.2.1 "surge gain profit" rfl rfl,
   C6_sentiment_scoring.2.2.2 "gain profit loss decline" rfl rfl⟩

/-! ## Retry-fetch lemmas -/

theorem retryFetchGo_acquires_eq_calls {ρ α : Type} (parse : ρ → Except String α)
    (nf : String → FetchError) (ak : Bool) (times : ℕ → ℤ)
    (outs : ℕ → HttpOutcome ρ) (symbol : String) (cache : Cache α) :
    ∀ retries attempt,
      (retryFetchGo parse nf ak times outs symbol cache attempt retries).rateLimitAcquires =
        (retryFetchGo parse nf ak times outs symbol cache attempt retries).upstreamCalls := by
  intro retries
  induction retries with
  | zero =>
    intro attempt
    simp only [retryFetchGo]
    repeat' split
    all_goals rfl
  | succ r ih =>
    intro attempt
    simp only [retryFetchGo]
    repeat' split
    all_goals simp [ih]

/-- After `k` transient attempts and a successful parse on attempt
`attempt + k`, the run returns the parsed value, caches it at that
attempt's time, and made exactly `k + 1` rate-limit acquisitions and
upstream calls. -/
theorem retryFetchGo_transient_then_ok {ρ α : Type} (parse : ρ → Except String α)
    (nf : String → FetchError) (times : ℕ → ℤ) (outs : ℕ → HttpOutcome ρ)
    (symbol : String) (cache : Cache α)
    (hmiss : ∀ n, cacheLookup cache (jsToUpper symbol) (times n) = none)
    (resp : ρ) (value : α) (hparse : parse resp = .ok value) :
    ∀ k retries attempt, k ≤ retries →
      (∀ i, i < k → (outs (attempt + i)).isTransient) →
      outs (attempt + k) = .ok resp →
      retryFetchGo parse nf true times outs symbol cache attempt retries =
        ⟨.ok value,
          cacheSet cache (jsToUpper symbol) ⟨value, times (attempt + k)⟩,
          k + 1, k + 1⟩ := by
  intro k
  induction k with
  | zero =>
    intro retries attempt _ _ hok
    rw [Nat.add_zero] at hok
    cases retries with
    | zero =>
      simp only [retryFetchGo, hmiss attempt, hok, hparse]
      rfl
    | succ r =>
      simp only [retryFetchGo, hmiss attempt, hok, hparse]
      rfl
  | succ k ih =>
    intro retries attempt hk htrans hok
    cases retries with
    | zero => omega
    | succ r =>
      have h0 : (outs (attempt + 0)).isTransient := htrans 0 (by omega)
      rw [Nat.add_zero] at h0
      have hshift : ∀ i, i < k → (outs (attempt + 1 + i)).isTransient := by
        intro i hi
        have := htrans (i + 1) (by omega)
        rwa [show attempt + (i + 1) = attempt + 1 + i from by omega] at this
      have hok1 : outs (attempt + 1 + k) = .ok resp := by
        rwa [show attempt + 1 + k = attempt + (k + 1) from by omega]
      have harr : attempt + 1 + k = attempt + (k + 1) := by omega
      cases houts : outs attempt with
      | ok resp2 =>
        rw [houts] at h0
        exact absurd h0 (by simp [HttpOutcome.isTransient])
      | noResponse =>
        simp only [retryFetchGo, hmiss attempt, houts]
        rw [ih r (attempt + 1) (by omega) hshift hok1, harr]
        rfl
      | httpStatus st =>
        have h5 : 500 ≤ st := by rw [houts] at h0; exact h0
        simp only [retryFetchGo, hmiss attempt, houts]
        rw [if_pos h5, ih r (attempt + 1) (by omega) hshift hok1, harr]
        rfl

/-- A 4xx (any status below 500) fails immediately: one acquisition, one
upstream call, no retry, regardless of the remaining retry budget. -/
theorem retryFetchGo_status_lt500 {ρ α : Type} (parse : ρ → Except String α)
    (nf : String → FetchError) (times : ℕ → ℤ) (outs : ℕ → HttpOutcome ρ)
    (symbol : String) (cache : Cache α) (attempt : ℕ)
    (hmiss : cacheLookup cache (jsToUpper symbol) (times attempt) = none)
    (st : ℕ) (houts : outs attempt = .httpStatus st) (h5 : st < 500) :
    ∀ retries,
      retryFetchGo parse nf true times outs symbol cache attempt retries =
        ⟨.error (formatAxiosError nf (jsToUpper symbol) st), cache, 1, 1⟩ := by
  intro retries
  cases retries with
  | zero =>
    simp only [retryFetchGo, hmiss, houts]
    rfl
  | succ r =>
    simp only [retryFetchGo, hmiss, houts]
    rw [if_neg (not_le.mpr h5)]
    rfl

/-- A successfully returned payload that the parser rejects (the
invalid-symbol / empty-payload condition) fails immediately with the parse
error: one acquisition, one upstream call, no retry. -/
theorem retryFetchGo_parse_error {ρ α : Type} (parse : ρ → Except String α)
    (nf : String → FetchError) (times : ℕ → ℤ) (outs : ℕ → HttpOutcome ρ)
    (symbol : String) (cache : Cache α) (attempt : ℕ)
    (hmiss : cacheLookup cache (jsToUpper symbol) (times attempt) = none)
    (resp : ρ) (msg : String) (houts : outs attempt = .ok resp)
    (hparse : parse resp = .error msg) :
    ∀ retries,
      retryFetchGo parse nf true times outs symbol cache attempt retries =
        ⟨.error (.thrownError msg), cache, 1, 1⟩ := by
  intro retries
  cases retries with
  | zero =>
    simp only [retryFetchGo, hmiss, houts, hparse]
    rfl
  | succ r =>
    simp only [retryFetchGo, hmiss, houts, hparse]
    rfl

/-- When every attempt up to the bound fails transiently, the run consumes
the whole budget: `retries + 1` attempts, then surfaces the API error. -/
theorem retryFetchGo_all_transient {ρ α : Type} (parse : ρ → Except String α)
    (nf : String → FetchError) (times : ℕ → ℤ) (outs : ℕ → HttpOutcome ρ)
    (symbol : String) (cache : Cache α)
    (hmiss : ∀ n, cacheLookup cache (jsToUpper symbol) (times n) = none) :
    ∀ retries attempt,
      (∀ i, i ≤ retries → (outs (attempt + i)).isTransient) →
      retryFetchGo parse nf true times outs symbol cache attempt retries =
        ⟨.error .apiError, cache, retries + 1, retries + 1⟩ := by
  intro retries
  induction retries with
  | zero =>
    intro attempt htrans
    have h0 : (outs (attempt + 0)).isTransient := htrans 0 (by omega)
    rw [Nat.add_zero] at h0
    cases houts : outs attempt with
    | ok resp2 =>
      rw [houts] at h0
      exact absurd h0 (by simp [HttpOutcome.isTransient])
    | noResponse =>
      simp only [retryFetchGo, hmiss attempt, houts]
      rfl
    | httpStatus st =>
      have h5 : 500 ≤ st := by rw [houts] at h0; exact h0
      have h404 : ¬st = 404 := by omega
      simp only [retryFetchGo, hmiss attempt, houts, formatAxiosError]
      rw [if_neg h404]
      rfl
  | succ r ih =>
    intro attempt htrans
    have h0 : (outs (attempt + 0)).isTransient := htrans 0 (by omega)
    rw [Nat.add_zero] at h0
    have hshift : ∀ i, i ≤ r → (outs (attempt + 1 + i)).isTransient := by
      intro i hi
      have := htrans (i + 1) (by omega)
      rwa [show attempt + (i + 1) = attempt + 1 + i from by omega] at this
    cases houts : outs attempt with
    | ok resp2 =>
      rw [houts] at h0
      exact absurd h0 (by simp [HttpOutcome.isTransient])
    | noResponse =>
      simp only [retryFetchGo, hmiss attempt, houts]
      rw [ih (attempt + 1) hshift]
      rfl
    | httpStatus st =>
      have h5 : 500 ≤ st := by rw [houts] at h0; exact h0
      simp only [retryFetchGo, hmiss attempt, houts]
      rw [if_pos h5, ih (attempt + 1) hshift]
      rfl

/-- The final cache of a run is either unchanged or the original cache
with the fetched entry stored under the uppercased symbol. -/
theorem retryFetchGo_cache_shape {ρ α : Type} (parse : ρ → Except String α)
    (nf : String → FetchError) (ak : Bool) (times : ℕ → ℤ)
    (outs : ℕ → HttpOutcome ρ) (symbol : String) (cache : Cache α) :
    ∀ retries attempt,
      (retryFetchGo parse nf ak times outs symbol cache attempt retries).cache = cache ∨
      ∃ e, (retryFetchGo parse nf ak times outs symbol cache attempt retries).cache =
        cacheSet cache (jsToUpper symbol) e := by
  intro retries
  induction retries with
  | zero =>
    intro attempt
    simp only [retryFetchGo]
    repeat' split
    all_goals simp
  | succ r ih =>
    intro attempt
    simp only [retryFetchGo]
    repeat' split
    all_goals simp [ih]

/-- Two caches that both miss at every attempt time produce the same
result and the same acquisition/call counts. -/
theorem retryFetchGo_congr_miss {ρ α : Type} (parse : ρ → Except String α)
    (nf : String → FetchError) (ak : Bool) (times : ℕ → ℤ)
    (outs : ℕ → HttpOutcome ρ) (symbol : String) (cache cache2 : Cache α)
    (hmiss : ∀ n, cacheLookup cache (jsToUpper symbol) (times n) = none)
    (hmiss2 : ∀ n, cacheLookup cache2 (jsToUpper symbol) (times n) = none) :
    ∀ retries attempt,
      (retryFetchGo parse nf ak times outs symbol cache attempt retries).result =
        (retryFetchGo parse nf ak times outs symbol cache2 attempt retries).result ∧
      (retryFetchGo parse nf ak times outs symbol cache attempt retries).rateLimitAcquires =
        (retryFetchGo parse nf ak times outs symbol cache2 attempt retries).rateLimitAcquires ∧
      (retryFetchGo parse nf ak times outs symbol cache attempt retries).upstreamCalls =
        (retryFetchGo parse nf ak times outs symbol cache2 attempt retries).upstreamCalls := by
  intro retries
  induction retries with
  | zero =>
    intro attempt
    simp only [retryFetchGo, hmiss attempt, hmiss2 attempt]
    repeat' split
    all_goals simp
  | succ r ih =>
    intro attempt
    simp only [retryFetchGo, hmiss attempt, hmiss2 attempt]
    repeat' split
    all_goals simp [ih]

theorem cacheLookup_eq_some_iff {α : Type} (cache : Cache α) (key : String)
    (now : ℤ) (v : α) :
    cacheLookup cache key now = some v ↔
      ∃ c, cache key = some c ∧ c.data = v ∧
        now - c.cachedAt < CACHE_TTL_MS := by
  unfold cacheLookup isCacheValid
  cases hc : cache key with
  | none => simp
  | some cached =>
    dsimp only
    by_cases h : now - cached.cachedAt < CACHE_TTL_MS
    · rw [if_pos (decide_eq_true h)]
      constructor
      · intro h2
        injection h2 with h3
        exact ⟨cached, rfl, h3, h⟩
      · rintro ⟨c, hc2, h3, _⟩
        injection hc2 with h4
        rw [← h4] at h3
        rw [h3]
    · rw [if_neg (by simpa using h)]
      constructor
      · intro h2
        exact absurd h2 (by simp)
      · rintro ⟨c, hc2, h3, h4⟩
        injection hc2 with h5
        rw [← h5] at h4
        exact absurd h4 h

theorem newsCacheLookup_eq_some_iff {α : Type} (cache : Cache α) (key : String)
    (now : ℤ) (v : α) :
    newsCacheLookup cache key now = some v ↔
      ∃ c, cache key = some c ∧ c.data = v ∧
        now - c.cachedAt < NEWS_CACHE_TTL_MS := by
  unfold newsCacheLookup
  cases hc : cache key with
  | none => simp
  | some cached =>
    dsimp only
    by_cases h : now - cached.cachedAt < NEWS_CACHE_TTL_MS
    · rw [if_pos (decide_eq_true h)]
      constructor
      · intro h2
        injection h2 with h3
        exact ⟨cached, rfl, h3, h⟩
      · rintro ⟨c, hc2, h3, _⟩
        injection hc2 with h4
        rw [← h4] at h3
        rw [h3]
    · rw [if_neg (by simpa using h)]
      constructor
      · intro h2
        exact absurd h2 (by simp)
      · rintro ⟨c, hc2, h3, h4⟩
        injection hc2 with h5
        rw [← h5] at h4
        exact absurd h4 h

/-- C2 counterexample: one logical `fetchStockQuote` call whose first
attempt fails with a network error and whose second succeeds acquires the
rate limiter twice, not once — the recursive retry (line 148) re-runs
`respectRateLimit()` (line 114) on every attempt. -/
theorem C2_counterexample :
    (fetchStockQuote true (fun _ => 0) sampleOutcomes "AAPL" emptyCache).result =
      .ok sampleQuote ∧
    (fetchStockQuote true (fun _ => 0) sampleOutcomes "AAPL"
      emptyCache).rateLimitAcquires = 2 ∧
    (2 : ℕ) ≠ 1 :=
  ⟨rfl, rfl, by decide⟩

/-- C2 (amended): the rate limiter is acquired exactly once per upstream
*attempt*, not once per logical call: every run performs as many
acquisitions as upstream calls, and a call that retries `k` times before
succeeding acquires the limiter `k + 1` times, because a retry re-invokes
the entire operation (cache check and `respectRateLimit()` included).
(`fetchSingleIndicator` has no retry loop, so its task acquires the
limiter at most once; see the single-flight theorem.) -/
theorem C2_rate_limit_per_attempt :
    (∀ (ρ α : Type) (parse : ρ → Except String α) (nf : String → FetchError)
        (ak : Bool) (times : ℕ → ℤ) (outs : ℕ → HttpOutcome ρ)
        (symbol : String) (cache : Cache α) (retries attempt : ℕ),
      (retryFetchGo parse nf ak times outs symbol cache attempt
        retries).rateLimitAcquires =
        (retryFetchGo parse nf ak times outs symbol cache attempt
          retries).upstreamCalls) ∧
    (∀ (ρ α : Type) (parse : ρ → Except String α) (nf : String → FetchError)
        (times : ℕ → ℤ) (outs : ℕ → HttpOutcome ρ) (symbol : String)
        (cache : Cache α) (resp : ρ) (value : α) (k retries : ℕ),
      (∀ n, cacheLookup cache (jsToUpper symbol) (times n) = none) →
      parse resp = .ok value → k ≤ retries →
      (∀ i, i < k → (outs i).isTransient) → outs k = .ok resp →
      (retryFetchGo parse nf true times outs symbol cache 0
        retries).rateLimitAcquires = k + 1) := by
  constructor
  · intro ρ α parse nf ak times outs symbol cache retries attempt
    exact retryFetchGo_acquires_eq_calls parse nf ak times outs symbol cache
      retries attempt
  · intro ρ α parse nf times outs symbol cache resp value k retries hmiss
      hparse hk htrans hok
    have h := retryFetchGo_transient_then_ok parse nf times outs symbol cache
      hmiss resp value hparse k retries 0 hk
      (fun i hi => by rw [Nat.zero_add]; exact htrans i hi)
      (by rw [Nat.zero_add]; exact hok)
    rw [h]

/-- C2 amended-theorem witness: the concrete fail-once-then-succeed run
acquires the limiter twice (`k = 1`). -/
theorem C2_rate_limit_per_attempt_witness :
    (retryFetchGo parseQuoteResponse
      (fun s => .notFound ("Stock symbol \"" ++ s ++ "\" not found")) true
      (fun _ => 0) sampleOutcomes "AAPL" emptyCache 0 3).rateLimitAcquires =
      2 :=
  C2_rate_limit_per_attempt.2 AlphaVantageQuoteResponse StockQuote
    parseQuoteResponse
    (fun s => .notFound ("Stock symbol \"" ++ s ++ "\" not found"))
    (fun _ => 0) sampleOutcomes "AAPL" emptyCache sampleQuoteResp sampleQuote
    1 3 (fun _ => rfl) rfl (by omega)
    (fun i hi => by
      have h0 : i = 0 := by omega
      subst h0
      exact True.intro)
    rfl

/-- C3: the retry policy — an attempt failing with a no-response/network
error or a 5xx is retried up to the bound, and a call failing transiently
exactly `k ≤ retries` times then succeeding returns the parsed value
(with `k + 1` upstream attempts); a 4xx failure or an invalid-symbol/empty
payload fails immediately after a single upstream attempt, consuming no
retry; when every attempt is transient the run stops after
`retries + 1` attempts. -/
theorem C3_retry_policy :
    ∀ (ρ α : Type) (parse : ρ → Except String α) (nf : String → FetchError)
      (times : ℕ → ℤ) (symbol : String) (cache : Cache α),
      (∀ n, cacheLookup cache (jsToUpper symbol) (times n) = none) →
      (∀ (outs : ℕ → HttpOutcome ρ) (resp : ρ) (value : α)
          (k retries attempt : ℕ),
        parse resp = .ok value → k ≤ retries →
        (∀ i, i < k → (outs (attempt + i)).isTransient) →
        outs (attempt + k) = .ok resp →
        retryFetchGo parse nf true times outs symbol cache attempt retries =
          ⟨.ok value,
            cacheSet cache (jsToUpper symbol) ⟨value, times (attempt + k)⟩,
            k + 1, k + 1⟩) ∧
      (∀ (outs : ℕ → HttpOutcome ρ) (st retries attempt : ℕ),
        outs attempt = .httpStatus st → 400 ≤ st → st < 500 →
        retryFetchGo parse nf true times outs symbol cache attempt retries =
          ⟨.error (formatAxiosError nf (jsToUpper symbol) st), cache, 1, 1⟩) ∧
      (∀ (outs : ℕ → HttpOutcome ρ) (resp : ρ) (msg : String)
          (retries attempt : ℕ),
        outs attempt = .ok resp → parse resp = .error msg →
        retryFetchGo parse nf true times outs symbol cache attempt retries =
          ⟨.error (.thrownError msg), cache, 1, 1⟩) ∧
      (∀ (outs : ℕ → HttpOutcome ρ) (retries attempt : ℕ),
        (∀ i, i ≤ retries → (outs (attempt + i)).isTransient) →
        retryFetchGo parse nf true times outs symbol cache attempt retries =
          ⟨.error .apiError, cache, retries + 1, retries + 1⟩) := by
  intro ρ α parse nf times symbol cache hmiss
  refine ⟨?_, ?_, ?_, ?_⟩
  · intro outs resp value k retries attempt hparse hk htrans hok
    exact retryFetchGo_transient_then_ok parse nf times outs symbol cache
      hmiss resp value hparse k retries attempt hk htrans hok
  · intro outs st retries attempt houts _ h5
    exact retryFetchGo_status_lt500 parse nf times outs symbol cache attempt
      (hmiss attempt) st houts h5 retries
  · intro outs resp msg retries attempt houts hparse
    exact retryFetchGo_parse_error parse nf times outs symbol cache attempt
      (hmiss attempt) resp msg houts hparse retries
  · intro outs retries attempt htrans
    exact retryFetchGo_all_transient parse nf times outs symbol cache hmiss
      retries attempt htrans

/-- C3 witness: the four retry-policy behaviors at concrete runs of
`fetchStockQuote` with `retries = 3`. -/
theorem C3_retry_policy_witness :
    fetchStockQuote true (fun _ => 0) sampleOutcomes "AAPL" emptyCache 3 =
      ⟨.ok sampleQuote, cacheSet emptyCache "AAPL" ⟨sampleQuote, 0⟩, 2, 2⟩ ∧
    fetchStockQuote true (fun _ => 0) notFoundOutcomes "AAPL" emptyCache 3 =
      ⟨.error (.notFound "Stock symbol \"AAPL\" not found"),
        emptyCache, 1, 1⟩ ∧
    fetchStockQuote true (fun _ => 0) emptyPayloadOutcomes "AAPL"
        emptyCache 3 =
      ⟨.error (.thrownError "Invalid symbol or no data returned from Alpha Vantage"),
        emptyCache, 1, 1⟩ ∧
    fetchStockQuote true (fun _ => 0) downOutcomes "AAPL" emptyCache 3 =
      ⟨.error .apiError, emptyCache, 4, 4⟩ := by
  have h := C3_retry_policy AlphaVantageQuoteResponse StockQuote
    parseQuoteResponse
    (fun s => .notFound ("Stock symbol \"" ++ s ++ "\" not found"))
    (fun _ => 0) "AAPL" emptyCache (fun _ => rfl)
  refine ⟨?_, ?_, ?_, ?_⟩
  · exact h.1 sampleOutcomes sampleQuoteResp sampleQuote 1 3 0 rfl
      (by omega)
      (fun i hi => by
        have h0 : i = 0 := by omega
        subst h0
        exact True.intro)
      rfl
  · exact h.2.1 notFoundOutcomes 404 3 0 rfl (by omega) (by omega)
  · exact h.2.2.1 emptyPayloadOutcomes ⟨some []⟩
      "Invalid symbol or no data returned from Alpha Vantage" 3 0 rfl rfl
  · exact h.2.2.2 downOutcomes 3 0 (fun i _ => True.intro)

/-- C7: cache freshness — a lookup returns the stored value iff an entry
exists and `now - capturedAt < TTL(kind)`, with TTL 5 minutes for the
quote/fundamentals/indicator caches and 15 minutes for news sentiment; a
fetch run over a cache whose entry for the key is stale at every attempt
time behaves exactly (result and counters) like one over a cache with no
entry at all, and proceeds to refetch; no fetch run ever removes a cache
entry. -/
theorem C7_cache_freshness :
    CACHE_TTL_MS = 5 * 60 * 1000 ∧
    NEWS_CACHE_TTL_MS = 15 * 60 * 1000 ∧
    (∀ (α : Type) (cache : Cache α) (key : String) (now : ℤ) (v : α),
      cacheLookup cache key now = some v ↔
        ∃ c, cache key = some c ∧ c.data = v ∧
          now - c.cachedAt < CACHE_TTL_MS) ∧
    (∀ (α : Type) (cache : Cache α) (key : String) (now : ℤ) (v : α),
      newsCacheLookup cache key now = some v ↔
        ∃ c, cache key = some c ∧ c.data = v ∧
          now - c.cachedAt < NEWS_CACHE_TTL_MS) ∧
    (∀ (ρ α : Type) (parse : ρ → Except String α) (nf : String → FetchError)
        (ak : Bool) (times : ℕ → ℤ) (outs : ℕ → HttpOutcome ρ)
        (symbol : String) (cache : Cache α) (c : CachedData α)
        (retries attempt : ℕ),
      cache (jsToUpper symbol) = some c →
      (∀ n, isCacheValid (times n) c = false) →
      (retryFetchGo parse nf ak times outs symbol cache attempt
        retries).result =
        (retryFetchGo parse nf ak times outs symbol
          (cacheErase cache (jsToUpper symbol)) attempt retries).result ∧
      (retryFetchGo parse nf ak times outs symbol cache attempt
        retries).rateLimitAcquires =
        (retryFetchGo parse nf ak times outs symbol
          (cacheErase cache (jsToUpper symbol)) attempt
          retries).rateLimitAcquires ∧
      (retryFetchGo parse nf ak times outs symbol cache attempt
        retries).upstreamCalls =
        (retryFetchGo parse nf ak times outs symbol
          (cacheErase cache (jsToUpper symbol)) attempt
          retries).upstreamCalls) ∧
    (∀ (ρ α : Type) (parse : ρ → Except String α) (nf : String → FetchError)
        (ak : Bool) (times : ℕ → ℤ) (outs : ℕ → HttpOutcome ρ)
        (symbol : String) (cache : Cache α) (retries attempt : ℕ)
        (k0 : String) (e : CachedData α),
      cache k0 = some e →
      ∃ e2, (retryFetchGo parse nf ak times outs symbol cache attempt
        retries).cache k0 = some e2) := by
  refine ⟨rfl, rfl, ?_, ?_, ?_, ?_⟩
  · intro α cache key now v
    exact cacheLookup_eq_some_iff cache key now v
  · intro α cache key now v
    exact newsCacheLookup_eq_some_iff cache key now v
  · intro ρ α parse nf ak times outs symbol cache c retries attempt hc hstale
    have hm1 : ∀ n, cacheLookup cache (jsToUpper symbol) (times n) = none := by
      intro n
      simp [cacheLookup, hc, hstale n]
    have hm2 : ∀ n,
        cacheLookup (cacheErase cache (jsToUpper symbol)) (jsToUpper symbol)
          (times n) = none := by
      intro n
      simp [cacheLookup, cacheErase]
    exact retryFetchGo_congr_miss parse nf ak times outs symbol cache
      (cacheErase cache (jsToUpper symbol)) hm1 hm2 retries attempt
  · intro ρ α parse nf ak times outs symbol cache retries attempt k0 e he
    rcases retryFetchGo_cache_shape parse nf ak times outs symbol cache
      retries attempt with h | ⟨e2, h⟩
    · exact ⟨e, by rw [h, he]⟩
    · rw [h]
      by_cases hk : k0 = jsToUpper symbol
      · exact ⟨e2, by simp [cacheSet, hk]⟩
      · exact ⟨e, by simp [cacheSet, hk, he]⟩

/-- C7 witness: a fresh hit at `now = 1`, and the stale-equals-miss and
never-evicted facts at a concrete one-entry cache whose entry is exactly
TTL old. -/
theorem C7_cache_freshness_witness :
    cacheLookup sampleCache "AAPL" 1 = some sampleQuote ∧
    (retryFetchGo parseQuoteResponse
        (fun s => .notFound ("Stock symbol \"" ++ s ++ "\" not found")) true
        (fun _ => CACHE_TTL_MS) downOutcomes "AAPL" sampleCache 0 0).result =
      (retryFetchGo parseQuoteResponse
        (fun s => .notFound ("Stock symbol \"" ++ s ++ "\" not found")) true
        (fun _ => CACHE_TTL_MS) downOutcomes "AAPL"
        (cacheErase sampleCache "AAPL") 0 0).result ∧
    (∃ e2, (retryFetchGo parseQuoteResponse
        (fun s => .notFound ("Stock symbol \"" ++ s ++ "\" not found")) true
        (fun _ => CACHE_TTL_MS) downOutcomes "AAPL" sampleCache 0 0).cache
        "AAPL" = some e2) := by
  refine ⟨?_, ?_, ?_⟩
  · exact (C7_cache_freshness.2.2.1 StockQuote sampleCache "AAPL" 1
      sampleQuote).mpr ⟨⟨sampleQuote, 0⟩, rfl, rfl, by decide⟩
  · exact (C7_cache_freshness.2.2.2.2.1 AlphaVantageQuoteResponse StockQuote
      parseQuoteResponse
      (fun s => .notFound ("Stock symbol \"" ++ s ++ "\" not found")) true
      (fun _ => CACHE_TTL_MS) downOutcomes "AAPL" sampleCache
      ⟨sampleQuote, 0⟩ 0 0 rfl (fun _ => rfl)).1
  · exact C7_cache_freshness.2.2.2.2.2 AlphaVantageQuoteResponse StockQuote
      parseQuoteResponse
      (fun s => .notFound ("Stock symbol \"" ++ s ++ "\" not found")) true
      (fun _ => CACHE_TTL_MS) downOutcomes "AAPL" sampleCache 0 0 "AAPL"
      ⟨sampleQuote, 0⟩ rfl

/-! ## Aggregator lemmas -/

theorem compareStocks_foldl_isSome (envQuote : String → Option StockQuote)
    (envMetrics : String → Option FinancialMetrics) :
    ∀ (l : List String) (m0 : String → Option ComparisonEntry) (k : String),
      ((l.foldl (fun m symbol =>
          match envQuote symbol, envMetrics symbol with
          | some quote, some financial =>
            fun k2 => if k2 = symbol then
                some (comparisonEntryOf quote financial)
              else m k2
          | _, _ => m) m0) k).isSome = true ↔
        ((k ∈ l ∧ (envQuote k).isSome = true ∧ (envMetrics k).isSome = true) ∨
          (m0 k).isSome = true) := by
  intro l
  induction l with
  | nil => intro m0 k; simp
  | cons s l ih =>
    intro m0 k
    rw [List.foldl_cons, ih]
    by_cases hk : k = s
    · subst hk
      cases hq : envQuote k with
      | none => simp [hq]
      | some q =>
        cases hf : envMetrics k with
        | none => simp [hq, hf]
        | some f => simp [hq, hf]
    · cases hq : envQuote s with
      | none => simp [hq, hk]
      | some q =>
        cases hf : envMetrics s with
        | none => simp [hq, hf, hk]
        | some f => simp [hq, hf, hk]

theorem getIndicator_setIndicator_self (r : IndicatorsRecord)
    (k : IndicatorKind) (v : IndicatorValue) :
    getIndicator (setIndicator r k v) k = some v := by
  cases k <;> rfl

theorem getIndicator_setIndicator_ne (r : IndicatorsRecord)
    (k k2 : IndicatorKind) (v : IndicatorValue) (h : k2 ≠ k) :
    getIndicator (setIndicator r k v) k2 = getIndicator r k2 := by
  cases k <;> cases k2 <;> first | rfl | exact absurd rfl h

theorem getIndicator_empty (k : IndicatorKind) :
    getIndicator {} k = none := by
  cases k <;> rfl

theorem indicators_foldl (env : IndicatorKind → Except Unit (Option IndicatorValue)) :
    ∀ (l : List IndicatorKind) (r0 : IndicatorsRecord) (k : IndicatorKind),
      getIndicator (l.foldl (fun r indicator =>
        match env indicator with
        | .ok (some value) => setIndicator r indicator value
        | .ok none => r
        | .error _ => r) r0) k =
        match env k with
        | .ok (some v) => if k ∈ l then some v else getIndicator r0 k
        | _ => getIndicator r0 k := by
  intro l
  induction l with
  | nil =>
    intro r0 k
    cases henv : env k with
    | ok o =>
      cases o with
      | some v => simp
      | none => simp
    | error e => simp
  | cons s l ih =>
    intro r0 k
    rw [List.foldl_cons, ih]
    by_cases hk : k = s
    · subst hk
      cases henv : env k with
      | ok o =>
        cases o with
        | some v =>
          simp only [henv, List.mem_cons, true_or, if_true,
            getIndicator_setIndicator_self]
          by_cases hm : k ∈ l <;> simp [hm, getIndicator_setIndicator_self]
        | none => simp [henv]
      | error e => simp [henv]
    · cases hs : env s with
      | ok o =>
        cases o with
        | some w =>
          cases henv : env k with
          | ok o2 =>
            cases o2 with
            | some v =>
              simp [henv, hs, hk, getIndicator_setIndicator_ne r0 s k w hk]
            | none => simp [henv, hs, getIndicator_setIndicator_ne r0 s k w hk]
          | error e => simp [henv, hs, getIndicator_setIndicator_ne r0 s k w hk]
        | none =>
          cases henv : env k <;> simp_all
      | error e =>
        cases henv : env k <;> simp_all

/-- C8: `compareStocks` never throws on a per-symbol failure — it is a
total function whose returned symbol list is the uppercased request and
whose metrics-map key set is exactly the uppercased requested symbols for
which both the quote and the fundamentals fetch succeeded; when every
requested symbol fails, the map is empty. -/
theorem C8_compare_partial_batch :
    ∀ (envQuote : String → Option StockQuote)
      (envMetrics : String → Option FinancialMetrics) (ts : String)
      (symbols : List String),
      ((compareStocks envQuote envMetrics ts symbols).symbols =
        symbols.map jsToUpper) ∧
      (∀ k, ((compareStocks envQuote envMetrics ts symbols).metrics k).isSome
          = true ↔
        (k ∈ symbols.map jsToUpper ∧ (envQuote k).isSome = true ∧
          (envMetrics k).isSome = true)) ∧
      ((∀ s2, s2 ∈ symbols.map jsToUpper →
          envQuote s2 = none ∨ envMetrics s2 = none) →
        ∀ k, (compareStocks envQuote envMetrics ts symbols).metrics k = none) := by
  intro envQuote envMetrics ts symbols
  refine ⟨rfl, ?_, ?_⟩
  · intro k
    simp only [compareStocks]
    rw [compareStocks_foldl_isSome envQuote envMetrics (symbols.map jsToUpper)
      (fun _ => none) k]
    simp
  · intro hfail k
    rw [← Option.not_isSome_iff_eq_none]
    intro hs
    simp only [compareStocks] at hs
    rw [compareStocks_foldl_isSome envQuote envMetrics (symbols.map jsToUpper)
      (fun _ => none) k] at hs
    rcases hs with ⟨hmem, hq, hf⟩ | habs
    · rcases hfail k hmem with h | h
      · rw [h] at hq; exact absurd hq (by simp)
      · rw [h] at hf; exact absurd hf (by simp)
    · exact absurd habs (by simp)

/-- C8 witness: `compareStocks ["AAPL","NOTASYMBOL","MSFT"]` with oracles
that fail exactly for `NOTASYMBOL` keeps exactly AAPL and MSFT; with
oracles failing everywhere the map is empty at every key. -/
theorem C8_compare_partial_batch_witness :
    ((compareStocks comparisonEnvQuote comparisonEnvMetrics "t"
      ["AAPL", "NOTASYMBOL", "MSFT"]).metrics "AAPL").isSome = true ∧
    ((compareStocks comparisonEnvQuote comparisonEnvMetrics "t"
      ["AAPL", "NOTASYMBOL", "MSFT"]).metrics "MSFT").isSome = true ∧
    (compareStocks comparisonEnvQuote comparisonEnvMetrics "t"
      ["AAPL", "NOTASYMBOL", "MSFT"]).metrics "NOTASYMBOL" = none ∧
    (compareStocks comparisonEnvQuote comparisonEnvMetrics "t"
      ["AAPL", "NOTASYMBOL", "MSFT"]).metrics "TSLA" = none ∧
    (∀ k, (compareStocks (fun _ => none) (fun _ => none) "t"
      ["AAPL", "MSFT"]).metrics k = none) := by
  have h := C8_compare_partial_batch comparisonEnvQuote comparisonEnvMetrics
    "t" ["AAPL", "NOTASYMBOL", "MSFT"]
  refine ⟨?_, ?_, ?_, ?_, ?_⟩
  · exact (h.2.1 "AAPL").mpr ⟨by decide, rfl, rfl⟩
  · exact (h.2.1 "MSFT").mpr ⟨by decide, rfl, rfl⟩
  · rw [← Option.not_isSome_iff_eq_none]
    intro hs
    rcases (h.2.1 "NOTASYMBOL").mp hs with ⟨_, hq, _⟩
    exact absurd hq (by decide)
  · rw [← Option.not_isSome_iff_eq_none]
    intro hs
    rcases (h.2.1 "TSLA").mp hs with ⟨hmem, _, _⟩
    exact absurd hmem (by decide)
  · exact (C8_compare_partial_batch (fun _ => none) (fun _ => none) "t"
      ["AAPL", "MSFT"]).2.2 (fun _ _ => Or.inl rfl)

/-- C9: `fetchTechnicalIndicators` populates exactly the requested
indicators whose individual fetches succeed with a value: a failed (or
`undefined`) individual fetch leaves that field absent without failing the
call, and in particular requesting `[SMA50, RSI, MACD]` with the MACD
fetch failing yields SMA50 and RSI populated, MACD absent, no error. -/
theorem C9_indicator_partiality :
    ∀ (env : IndicatorKind → Except Unit (Option IndicatorValue))
      (ts symbol : String) (indicators : List IndicatorKind),
      (∃ r, fetchTechnicalIndicators true env ts symbol indicators = .ok r ∧
        r.symbol = jsToUpper symbol ∧ r.timestamp = ts ∧
        ∀ k, getIndicator r.indicators k =
          match env k with
          | .ok (some v) => if k ∈ indicators then some v else none
          | _ => none) ∧
      (∀ a b, env .SMA50 = .ok (some a) → env .RSI = .ok (some b) →
        env .MACD = .error () →
        fetchTechnicalIndicators true env ts symbol [.SMA50, .RSI, .MACD] =
          .ok ⟨jsToUpper symbol, ⟨some a, none, some b, none⟩, ts⟩) := by
  intro env ts symbol indicators
  constructor
  · refine ⟨_, rfl, rfl, rfl, ?_⟩
    intro k
    show getIndicator (List.foldl _ {} indicators) k = _
    rw [indicators_foldl env indicators {} k]
    cases henv : env k with
    | ok o =>
      cases o with
      | some v =>
        by_cases hm : k ∈ indicators <;> simp [hm, getIndicator_empty]
      | none => simp [getIndicator_empty]
    | error e => simp [getIndicator_empty]
  · intro a b ha hb hm
    simp only [fetchTechnicalIndicators, List.foldl_cons, List.foldl_nil,
      ha, hb, hm]
    rfl

/-- C9 witness at the concrete indicator oracle. -/
theorem C9_indicator_partiality_witness :
    fetchTechnicalIndicators true indicatorEnv "ts" "aapl"
      [.SMA50, .RSI, .MACD] =
      .ok ⟨"AAPL", ⟨some (.num (some 1)), none, some (.num (some 2)), none⟩,
        "ts"⟩ :=
  (C9_indicator_partiality indicatorEnv "ts" "aapl"
    [.SMA50, .RSI, .MACD]).2 (.num (some 1)) (.num (some 2)) rfl rfl rfl

/-- C10: the news-sentiment cache key ignores the `limit` parameter: after
a successful `fetchNewsSentiment(symbol, l1)` at time `t1` on a cold key,
a call with any other limit `l2` (and any provider behavior) within the
15-minute TTL returns the identical cached report and leaves the cache
unchanged, so the article count still reflects the first call's limit. -/
theorem C10_news_cache_ignores_limit :
    ∀ (newsKeySet : Bool) (env1 env2 : ℕ → NewsApiOutcome) (ts1 ts2 : String)
      (cache : Cache NewsSentiment) (symbol : String) (l1 l2 : ℕ)
      (t1 t2 : ℤ) (r : NewsSentiment) (c1 : Cache NewsSentiment),
      cache (jsToUpper symbol ++ "-news") = none →
      fetchNewsSentiment newsKeySet t1 env1 ts1 cache symbol l1 = (.ok r, c1) →
      t2 - t1 < NEWS_CACHE_TTL_MS →
      fetchNewsSentiment newsKeySet t2 env2 ts2 c1 symbol l2 = (.ok r, c1) ∧
      (∀ raw statusOk, env1 l1 = .ok statusOk raw →
        r.articleCount = (newsArticlesOf raw).length) := by
  intro nk env1 env2 ts1 ts2 cache symbol l1 l2 t1 t2 r c1 hc h1 hfresh
  simp only [fetchNewsSentiment, newsCacheLookup, hc] at h1
  cases nk with
  | false => exact absurd h1 (by simp)
  | true =>
    rw [if_neg (show ¬(true = false) by decide)] at h1
    cases henv : env1 l1 with
    | failure =>
      rw [henv] at h1
      exact absurd h1 (by simp)
    | ok statusOk raw =>
      rw [henv] at h1
      cases statusOk with
      | false => exact absurd h1 (by simp)
      | true =>
        dsimp only at h1
        rw [if_neg (show ¬(true = false) by decide), Prod.mk.injEq] at h1
        obtain ⟨hr, hc1⟩ := h1
        rw [Except.ok.injEq] at hr
        subst hr
        subst hc1
        refine ⟨?_, ?_⟩
        · simp only [fetchNewsSentiment, newsCacheLookup, cacheSet, if_pos rfl,
            if_true]
          rw [if_pos (decide_eq_true hfresh)]
        · intro raw2 so2 henv2
          injection henv2 with h3 h4
          subst h4
          rfl

/-- C10 witness: a second call with a different limit and a provider that
would now return no articles still returns the first (one-article)
report. -/
theorem C10_news_cache_ignores_limit_witness :
    fetchNewsSentiment true 1 newsEnvEmpty "ts2"
        (cacheSet emptyCache "AAPL-news" ⟨sampleNews, 0⟩) "AAPL" 3 =
      (.ok sampleNews, cacheSet emptyCache "AAPL-news" ⟨sampleNews, 0⟩) ∧
    sampleNews.articleCount = (newsArticlesOf [sampleRawArticle]).length := by
  have h := C10_news_cache_ignores_limit true newsEnvOne newsEnvEmpty "ts1"
    "ts2" emptyCache "AAPL" 10 3 0 1 sampleNews
    (cacheSet emptyCache "AAPL-news" ⟨sampleNews, 0⟩) rfl rfl (by decide)
  exact ⟨h.1, h.2 [sampleRawArticle] true rfl⟩

/-! ## Single-flight machine lemmas -/

theorem getElem?_set_cases {β : Type} (l : List β) (i j : ℕ) (a b : β)
    (h : (l.set i a)[j]? = some b) :
    (j = i ∧ b = a ∧ i < l.length) ∨ (j ≠ i ∧ l[j]? = some b) := by
  by_cases hji : j = i
  · subst hji
    have hlt : j < l.length := by
      have := (List.getElem?_eq_some.mp h).1
      simpa using this
    rw [List.getElem?_set_eq_of_lt a hlt] at h
    injection h with h2
    exact Or.inl ⟨rfl, h2.symm, hlt⟩
  · rw [List.getElem?_set_ne (fun hh => hji hh.symm)] at h
    exact Or.inr ⟨hji, h⟩

theorem getElem?_concat_cases {β : Type} (l : List β) (x b : β) (j : ℕ)
    (h : (l ++ [x])[j]? = some b) :
    (j = l.length ∧ b = x) ∨ (j < l.length ∧ l[j]? = some b) := by
  rcases Nat.lt_trichotomy j l.length with hlt | heq | hgt
  · rw [List.getElem?_append_left hlt] at h
    exact Or.inr ⟨hlt, h⟩
  · subst heq
    rw [List.getElem?_concat_length] at h
    injection h with h2
    exact Or.inl ⟨rfl, h2.symm⟩
  · have hnone : (l ++ [x])[j]? = none :=
      List.getElem?_eq_none (by simp; omega)
    rw [hnone] at h
    exact absurd h (by simp)

theorem sum_map_set {β : Type} (f : β → ℕ) :
    ∀ (l : List β) (n : ℕ) (tk a : β), l[n]? = some tk →
      ((l.set n a).map f).sum + f tk = (l.map f).sum + f a := by
  intro l
  induction l with
  | nil => intro n tk a h; simp at h
  | cons x l ih =>
    intro n tk a h
    cases n with
    | zero =>
      simp only [List.getElem?_cons_zero] at h
      injection h with h2
      subst h2
      simp only [List.set, List.map_cons, List.sum_cons]
      omega
    | succ n =>
      simp only [List.getElem?_cons_succ] at h
      have := ih n tk a h
      simp only [List.set, List.map_cons, List.sum_cons]
      omega

theorem sum_map_concat {β : Type} (f : β → ℕ) (l : List β) (x : β) :
    ((l ++ [x]).map f).sum = (l.map f).sum + f x := by
  simp

theorem settled_filter_length_eq_sum {V : Type} :
    ∀ l : List (DTask V),
      (l.filter (fun tk => tk.isSettled)).length = (l.map settledWeight).sum := by
  intro l
  induction l with
  | nil => rfl
  | cons tk l ih =>
    cases tk with
    | settled r =>
      rw [List.filter_cons, List.map_cons, List.sum_cons,
        if_pos (show (DTask.settled r).isSettled = true from rfl)]
      simp only [List.length_cons, settledWeight, ih]
      omega
    | atRateLimit =>
      rw [List.filter_cons, List.map_cons, List.sum_cons,
        if_neg (show ¬(DTask.atRateLimit : DTask V).isSettled = true from
          by simp [DTask.isSettled])]
      simp only [settledWeight, ih]
      omega
    | atHttp =>
      rw [List.filter_cons, List.map_cons, List.sum_cons,
        if_neg (show ¬(DTask.atHttp : DTask V).isSettled = true from
          by simp [DTask.isSettled])]
      simp only [settledWeight, ih]
      omega

theorem dStep_invGen {V : Type} (res : Except Unit (Option V)) (s : DState V)
    (a : DAction) (hinv : DInvGen res s) : DInvGen res (dStep res s a) := by
  obtain ⟨h1, h2, h3, h4, h5, h6⟩ := hinv
  cases a with
  | caller i =>
    cases hci : s.callers[i]? with
    | none =>
      simp only [dStep, hci]
      exact ⟨h1, h2, h3, h4, h5, h6⟩
    | some c =>
      cases c with
      | start =>
        cases hcache : s.cache with
        | some v =>
          simp only [dStep, hci, hcache]
          refine ⟨h1, h2, h3, h4, h5, ?_⟩
          intro j t2 hj
          rcases getElem?_set_cases _ _ _ _ _ hj with ⟨_, hb, _⟩ | ⟨_, hold⟩
          · exact absurd hb (by simp)
          · exact h6 j t2 hold
        | none =>
          cases hinf : s.inflight with
          | some t =>
            have hstep : dStep res s (DAction.caller i) =
                { s with callers := s.callers.set i (DCaller.waitingOn t) } := by
              simp only [dStep, hci, hcache, hinf]
            rw [hstep]
            refine ⟨h1, h2, h3, h4, h5, ?_⟩
            intro j t2 hj
            rcases getElem?_set_cases _ _ _ _ _ hj with ⟨_, hb, _⟩ | ⟨_, hold⟩
            · obtain ⟨tk, htk, _⟩ := h3 t hinf
              have hlt := (List.getElem?_eq_some.mp htk).1
              injection hb with hb2
              rw [hb2]
              exact hlt
            · exact h6 j t2 hold
          | none =>
            simp only [dStep, hci, hcache, hinf]
            refine ⟨?_, ?_, ?_, ?_, ?_, ?_⟩
            · rw [sum_map_concat]
              simpa [settledWeight] using h1
            · rw [sum_map_concat]
              simpa [callWeight] using h2
            · intro t2 hinf2
              have hteq : s.tasks.length = t2 := by injection hinf2
              subst hteq
              exact ⟨.atRateLimit, List.getElem?_concat_length _ _, rfl⟩
            · intro t2 tk htk hnset
              rcases getElem?_concat_cases _ _ _ _ htk with ⟨heq, _⟩ | ⟨_, hold⟩
              · rw [heq]
              · have := h4 t2 tk hold hnset
                rw [hinf] at this
                exact absurd this (by simp)
            · intro t2 r2 htk
              rcases getElem?_concat_cases _ _ _ _ htk with ⟨_, hb⟩ | ⟨_, hold⟩
              · exact absurd hb (by simp)
              · exact h5 t2 r2 hold
            · intro j t2 hj
              simp only [List.length_append, List.length_cons, List.length_nil]
              rcases getElem?_set_cases _ _ _ _ _ hj with ⟨_, hb, _⟩ | ⟨_, hold⟩
              · injection hb with hb2
                rw [hb2]
                omega
              · have := h6 j t2 hold
                omega
      | waitingOn t =>
        cases hts : s.tasks[t]? with
        | none =>
          simp only [dStep, hci, hts]
          exact ⟨h1, h2, h3, h4, h5, h6⟩
        | some tk =>
          cases tk with
          | settled r2 =>
            simp only [dStep, hci, hts]
            refine ⟨h1, h2, h3, h4, h5, ?_⟩
            intro j t2 hj
            rcases getElem?_set_cases _ _ _ _ _ hj with ⟨_, hb, _⟩ | ⟨_, hold⟩
            · exact absurd hb (by simp)
            · exact h6 j t2 hold
          | atRateLimit =>
            simp only [dStep, hci, hts]
            exact ⟨h1, h2, h3, h4, h5, h6⟩
          | atHttp =>
            simp only [dStep, hci, hts]
            exact ⟨h1, h2, h3, h4, h5, h6⟩
      | done r2 =>
        simp only [dStep, hci]
        exact ⟨h1, h2, h3, h4, h5, h6⟩
  | task t =>
    cases hts : s.tasks[t]? with
    | none =>
      simp only [dStep, hts]
      exact ⟨h1, h2, h3, h4, h5, h6⟩
    | some tk =>
      cases tk with
      | atRateLimit =>
        have hlt := (List.getElem?_eq_some.mp hts).1
        simp only [dStep, hts]
        refine ⟨?_, ?_, ?_, ?_, ?_, ?_⟩
        · dsimp only
          have hs := sum_map_set settledWeight s.tasks t .atRateLimit .atHttp hts
          simp only [settledWeight] at hs
          omega
        · dsimp only
          have hs := sum_map_set callWeight s.tasks t .atRateLimit .atHttp hts
          simp only [callWeight] at hs
          omega
        · intro t2 hinf2
          obtain ⟨tk2, htk2, hns2⟩ := h3 t2 hinf2
          by_cases ht2 : t2 = t
          · subst ht2
            exact ⟨.atHttp, List.getElem?_set_eq_of_lt _ hlt, rfl⟩
          · exact ⟨tk2, by
              rw [List.getElem?_set_ne (fun hh => ht2 hh.symm)]
              exact htk2, hns2⟩
        · intro t2 tk2 htk2 hns2
          rcases getElem?_set_cases _ _ _ _ _ htk2 with ⟨heq, _, _⟩ | ⟨_, hold⟩
          · rw [heq]
            exact h4 t .atRateLimit hts rfl
          · exact h4 t2 tk2 hold hns2
        · intro t2 r2 htk2
          rcases getElem?_set_cases _ _ _ _ _ htk2 with ⟨_, hb, _⟩ | ⟨_, hold⟩
          · exact absurd hb (by simp)
          · exact h5 t2 r2 hold
        · intro j t2 hj
          simp only [List.length_set]
          exact h6 j t2 hj
      | atHttp =>
        have hlt := (List.getElem?_eq_some.mp hts).1
        simp only [dStep, hts]
        refine ⟨?_, ?_, ?_, ?_, ?_, ?_⟩
        · dsimp only
          have hs := sum_map_set settledWeight s.tasks t .atHttp (.settled res) hts
          simp only [settledWeight] at hs
          omega
        · dsimp only
          have hs := sum_map_set callWeight s.tasks t .atHttp (.settled res) hts
          simp only [callWeight] at hs
          omega
        · intro t2 hinf2
          exact absurd hinf2 (by simp)
        · intro t2 tk2 htk2 hns2
          rcases getElem?_set_cases _ _ _ _ _ htk2 with ⟨_, hb, _⟩ | ⟨hne, hold⟩
          · rw [hb] at hns2
            exact absurd hns2 (by simp [DTask.isSettled])
          · have hreg := h4 t2 tk2 hold hns2
            have hreg2 := h4 t .atHttp hts rfl
            rw [hreg] at hreg2
            injection hreg2 with hh
            exact absurd hh hne
        · intro t2 r2 htk2
          rcases getElem?_set_cases _ _ _ _ _ htk2 with ⟨_, hb, _⟩ | ⟨_, hold⟩
          · exact DTask.settled.inj hb
          · exact h5 t2 r2 hold
        · intro j t2 hj
          simp only [List.length_set]
          exact h6 j t2 hj
      | settled r2 =>
        simp only [dStep, hts]
        exact ⟨h1, h2, h3, h4, h5, h6⟩

theorem dStep_invOk {V : Type} (v : V) (s : DState V) (a : DAction)
    (hg : DInvGen (Except.ok (some v)) s) (ho : DInvOk v s) :
    DInvOk v (dStep (Except.ok (some v)) s a) := by
  obtain ⟨g1, g2, g3, g4, g5, g6⟩ := hg
  obtain ⟨o1, o2, o3, o4, o5, o6⟩ := ho
  cases a with
  | caller i =>
    cases hci : s.callers[i]? with
    | none =>
      simp only [dStep, hci]
      exact ⟨o1, o2, o3, o4, o5, o6⟩
    | some c =>
      cases c with
      | start =>
        cases hcache : s.cache with
        | some w =>
          have hstep : dStep (Except.ok (some v)) s (DAction.caller i) =
              { s with callers :=
                  s.callers.set i (DCaller.done (Except.ok (some w))) } := by
            simp only [dStep, hci, hcache]
          rw [hstep]
          refine ⟨o1, o2, o3, o4, ?_, ?_⟩
          · intro j r2 hj
            rcases getElem?_set_cases _ _ _ _ _ hj with ⟨_, hb, _⟩ | ⟨_, hold⟩
            · injection hb with hb2
              rw [hb2, o1 w hcache]
            · exact o5 j r2 hold
          · intro j r2 hj
            rcases getElem?_set_cases _ _ _ _ _ hj with ⟨_, _, _⟩ | ⟨_, hold⟩
            · exact o2 w hcache
            · exact o6 j r2 hold
        | none =>
          cases hinf : s.inflight with
          | some t =>
            have hstep : dStep (Except.ok (some v)) s (DAction.caller i) =
                { s with callers :=
                    s.callers.set i (DCaller.waitingOn t) } := by
              simp only [dStep, hci, hcache, hinf]
            rw [hstep]
            refine ⟨o1, o2, o3, o4, ?_, ?_⟩
            · intro j r2 hj
              rcases getElem?_set_cases _ _ _ _ _ hj with ⟨_, hb, _⟩ | ⟨_, hold⟩
              · exact absurd hb (by simp)
              · exact o5 j r2 hold
            · intro j r2 hj
              rcases getElem?_set_cases _ _ _ _ _ hj with ⟨_, hb, _⟩ | ⟨_, hold⟩
              · exact absurd hb (by simp)
              · exact o6 j r2 hold
          | none =>
            have htasks : s.tasks = [] := by
              cases hT : s.tasks with
              | nil => rfl
              | cons tk rest =>
                exfalso
                have h0 : s.tasks[0]? = some tk := by rw [hT]; exact List.getElem?_cons_zero
                cases hset : tk.isSettled with
                | true =>
                  have hex : ∃ (t : ℕ) (r2 : Except Unit (Option V)),
                      s.tasks[t]? = some (DTask.settled r2) := by
                    cases tk with
                    | settled r2 => exact ⟨0, r2, h0⟩
                    | atRateLimit => simp [DTask.isSettled] at hset
                    | atHttp => simp [DTask.isSettled] at hset
                  have := o3 hex
                  rw [hcache] at this
                  exact absurd this (by simp)
                | false =>
                  have := g4 0 tk h0 hset
                  rw [hinf] at this
                  exact absurd this (by simp)
            have hstep : dStep (Except.ok (some v)) s (DAction.caller i) =
                { s with tasks := s.tasks ++ [DTask.atRateLimit]
                         inflight := some s.tasks.length
                         callers := s.callers.set i
                           (DCaller.waitingOn s.tasks.length) } := by
              simp only [dStep, hci, hcache, hinf]
            rw [hstep]
            refine ⟨?_, ?_, ?_, ?_, ?_, ?_⟩
            · intro w hw
              rw [hcache] at hw
              exact absurd hw (by simp)
            · intro w hw
              rw [hcache] at hw
              exact absurd hw (by simp)
            · intro hex
              obtain ⟨t2, r2, ht2⟩ := hex
              rw [htasks] at ht2
              cases t2 with
              | zero => exact absurd ht2 (by simp)
              | succ n => exact absurd ht2 (by simp)
            · rw [htasks]
              simp
            · intro j r2 hj
              rcases getElem?_set_cases _ _ _ _ _ hj with ⟨_, hb, _⟩ | ⟨_, hold⟩
              · exact absurd hb (by simp)
              · exact o5 j r2 hold
            · intro j r2 hj
              rcases getElem?_set_cases _ _ _ _ _ hj with ⟨_, hb, _⟩ | ⟨_, hold⟩
              · exact absurd hb (by simp)
              · obtain ⟨t2, r3, ht2⟩ := o6 j r2 hold
                rw [htasks] at ht2
                exact absurd ht2 (by simp)
      | waitingOn t =>
        cases hts : s.tasks[t]? with
        | none =>
          simp only [dStep, hci, hts]
          exact ⟨o1, o2, o3, o4, o5, o6⟩
        | some tk =>
          cases tk with
          | settled r2 =>
            have hstep : dStep (Except.ok (some v)) s (DAction.caller i) =
                { s with callers := s.callers.set i (DCaller.done r2) } := by
              simp only [dStep, hci, hts]
            rw [hstep]
            refine ⟨o1, o2, o3, o4, ?_, ?_⟩
            · intro j r3 hj
              rcases getElem?_set_cases _ _ _ _ _ hj with ⟨_, hb, _⟩ | ⟨_, hold⟩
              · injection hb with hb2
                rw [hb2]
                exact g5 t r2 hts
              · exact o5 j r3 hold
            · intro j r3 hj
              rcases getElem?_set_cases _ _ _ _ _ hj with ⟨_, _, _⟩ | ⟨_, hold⟩
              · exact ⟨t, r2, hts⟩
              · exact o6 j r3 hold
          | atRateLimit =>
            simp only [dStep, hci, hts]
            exact ⟨o1, o2, o3, o4, o5, o6⟩
          | atHttp =>
            simp only [dStep, hci, hts]
            exact ⟨o1, o2, o3, o4, o5, o6⟩
      | done r2 =>
        simp only [dStep, hci]
        exact ⟨o1, o2, o3, o4, o5, o6⟩
  | task t =>
    cases hts : s.tasks[t]? with
    | none =>
      simp only [dStep, hts]
      exact ⟨o1, o2, o3, o4, o5, o6⟩
    | some tk =>
      cases tk with
      | atRateLimit =>
        have hlt := (List.getElem?_eq_some.mp hts).1
        have hstep : dStep (Except.ok (some v)) s (DAction.task t) =
            { s with tasks := s.tasks.set t DTask.atHttp
                     upstreamCalls := s.upstreamCalls + 1 } := by
          simp only [dStep, hts]
        rw [hstep]
        refine ⟨o1, ?_, ?_, ?_, o5, ?_⟩
        · intro w hw
          obtain ⟨t2, r2, ht2⟩ := o2 w hw
          by_cases ht2t : t2 = t
          · subst ht2t
            rw [hts] at ht2
            exact absurd ht2 (by simp)
          · exact ⟨t2, r2, by
              rw [List.getElem?_set_ne (fun hh => ht2t hh.symm)]
              exact ht2⟩
        · intro hex
          obtain ⟨t2, r2, ht2⟩ := hex
          rcases getElem?_set_cases _ _ _ _ _ ht2 with ⟨_, hb, _⟩ | ⟨_, hold⟩
          · exact absurd hb (by simp)
          · exact o3 ⟨t2, r2, hold⟩
        · simp only [List.length_set]
          exact o4
        · intro j r2 hj
          obtain ⟨t2, r3, ht2⟩ := o6 j r2 hj
          by_cases ht2t : t2 = t
          · subst ht2t
            rw [hts] at ht2
            exact absurd ht2 (by simp)
          · exact ⟨t2, r3, by
              rw [List.getElem?_set_ne (fun hh => ht2t hh.symm)]
              exact ht2⟩
      | atHttp =>
        have hlt := (List.getElem?_eq_some.mp hts).1
        have hstep : dStep (Except.ok (some v)) s (DAction.task t) =
            { s with cache := some v
                     inflight := none
                     registryDeletes := s.registryDeletes + 1
                     tasks := s.tasks.set t
                       (DTask.settled (Except.ok (some v))) } := by
          simp only [dStep, hts]
        rw [hstep]
        refine ⟨?_, ?_, ?_, ?_, o5, ?_⟩
        · intro w hw
          injection hw with hww
          exact hww.symm
        · intro w _
          exact ⟨t, Except.ok (some v), List.getElem?_set_eq_of_lt _ hlt⟩
        · intro _
          rfl
        · simp only [List.length_set]
          exact o4
        · intro j r2 _
          exact ⟨t, Except.ok (some v), List.getElem?_set_eq_of_lt _ hlt⟩
      | settled r2 =>
        simp only [dStep, hts]
        exact ⟨o1, o2, o3, o4, o5, o6⟩

theorem dRun_invGen {V : Type} (res : Except Unit (Option V)) :
    ∀ (sched : List DAction) (s : DState V),
      DInvGen res s → DInvGen res (dRun res s sched) := by
  intro sched
  induction sched with
  | nil => intro s h; exact h
  | cons a sched ih =>
    intro s h
    exact ih (dStep res s a) (dStep_invGen res s a h)

theorem dRun_invOk {V : Type} (v : V) :
    ∀ (sched : List DAction) (s : DState V),
      DInvGen (Except.ok (some v)) s → DInvOk v s →
      DInvOk v (dRun (Except.ok (some v)) s sched) := by
  intro sched
  induction sched with
  | nil => intro s _ h; exact h
  | cons a sched ih =>
    intro s hg h
    exact ih (dStep (Except.ok (some v)) s a)
      (dStep_invGen (Except.ok (some v)) s a hg)
      (dStep_invOk v s a hg h)

theorem dInit_invGen {V : Type} (res : Except Unit (Option V)) (K : ℕ) :
    DInvGen res (dInit V K) := by
  refine ⟨rfl, rfl, ?_, ?_, ?_, ?_⟩
  · intro t h
    exact absurd h (by simp [dInit])
  · intro t tk h _
    exact absurd h (by simp [dInit])
  · intro t r2 h
    exact absurd h (by simp [dInit])
  · intro i t h
    rw [show (dInit V K).callers = List.replicate K DCaller.start from rfl,
      List.getElem?_replicate] at h
    by_cases hik : i < K
    · rw [if_pos hik] at h
      exact absurd h (by simp)
    · rw [if_neg hik] at h
      exact absurd h (by simp)

theorem dInit_invOk {V : Type} (v : V) (K : ℕ) : DInvOk v (dInit V K) := by
  refine ⟨?_, ?_, ?_, ?_, ?_, ?_⟩
  · intro w hw
    exact absurd hw (by simp [dInit])
  · intro w hw
    exact absurd hw (by simp [dInit])
  · intro hex
    obtain ⟨t, r2, ht⟩ := hex
    exact absurd ht (by simp [dInit])
  · simp [dInit]
  · intro i r2 h
    rw [show (dInit V K).callers = List.replicate K DCaller.start from rfl,
      List.getElem?_replicate] at h
    by_cases hik : i < K
    · rw [if_pos hik] at h
      exact absurd h (by simp)
    · rw [if_neg hik] at h
      exact absurd h (by simp)
  · intro i r2 h
    rw [show (dInit V K).callers = List.replicate K DCaller.start from rfl,
      List.getElem?_replicate] at h
    by_cases hik : i < K
    · rw [if_pos hik] at h
      exact absurd h (by simp)
    · rw [if_neg hik] at h
      exact absurd h (by simp)

theorem dStep_callers_length {V : Type} (res : Except Unit (Option V))
    (s : DState V) (a : DAction) :
    (dStep res s a).callers.length = s.callers.length := by
  cases a with
  | caller i =>
    simp only [dStep]
    repeat' split
    all_goals simp
  | task t =>
    simp only [dStep]
    repeat' split
    all_goals simp

theorem dRun_callers_length {V : Type} (res : Except Unit (Option V)) :
    ∀ (sched : List DAction) (s : DState V),
      (dRun res s sched).callers.length = s.callers.length := by
  intro sched
  induction sched with
  | nil => intro s; rfl
  | cons a sched ih =>
    intro s
    rw [show dRun res s (a :: sched) = dRun res (dStep res s a) sched from rfl,
      ih (dStep res s a), dStep_callers_length]

/-- C1 counterexample: for the *quote* cache key the claimed single-flight
property fails — `fetchStockQuote` has no in-flight registry, so two
callers that both issue the fetch before either has resolved (the schedule
interleaves both cache-miss steps first) make **two** upstream calls, not
one. -/
theorem C1_counterexample :
    (qRun 42 (qInit ℕ 2) [0, 1, 0, 1, 0, 1]).upstreamCalls = 2 ∧
    (qRun 42 (qInit ℕ 2) [0, 1, 0, 1, 0, 1]).callers =
      [QCaller.done 42, QCaller.done 42] ∧
    (2 : ℕ) ≠ 1 :=
  ⟨rfl, rfl, by decide⟩

/-- C1 (amended): the single-flight guarantee holds for the
individual-indicator key, the only fetch routed through the
`inflightRequests` registry (`fetchSingleIndicator`): under every
interleaving of K concurrent callers for one key, the registry entry is
deleted exactly once per task settlement — success or failure — and never
left pointing at a settled task; when the upstream exchange succeeds, at
most one task is ever created, at most one upstream call is made, every
finished caller receives the identical value, and if all K ≥ 1 callers
finished then exactly one upstream call was made.  The quote,
fundamentals and news fetches have no such registry (see the
counterexample). -/
theorem C1_indicator_single_flight :
    ∀ (V : Type) (res : Except Unit (Option V)) (K : ℕ)
      (sched : List DAction),
      ((dRun res (dInit V K) sched).registryDeletes =
        ((dRun res (dInit V K) sched).tasks.filter
          (fun tk => tk.isSettled)).length) ∧
      (∀ t : ℕ, (dRun res (dInit V K) sched).inflight = some t →
        ∃ tk : DTask V, (dRun res (dInit V K) sched).tasks[t]? = some tk ∧
          tk.isSettled = false) ∧
      (∀ v : V, res = Except.ok (some v) →
        (dRun res (dInit V K) sched).upstreamCalls ≤ 1 ∧
        (dRun res (dInit V K) sched).tasks.length ≤ 1 ∧
        (∀ (i : ℕ) (r2 : Except Unit (Option V)),
          (dRun res (dInit V K) sched).callers[i]? =
            some (DCaller.done r2) → r2 = Except.ok (some v)) ∧
        ((∀ c ∈ (dRun res (dInit V K) sched).callers, c.isDone = true) →
          0 < K → (dRun res (dInit V K) sched).upstreamCalls = 1)) := by
  intro V res K sched
  obtain ⟨h1, h2, h3, h4, h5, h6⟩ :=
    dRun_invGen res sched (dInit V K) (dInit_invGen res K)
  refine ⟨?_, h3, ?_⟩
  · rw [settled_filter_length_eq_sum]
    exact h1
  · intro v hres
    subst hres
    obtain ⟨o1, o2, o3, o4, o5, o6⟩ :=
      dRun_invOk v sched (dInit V K) (dInit_invGen _ K) (dInit_invOk v K)
    refine ⟨?_, o4, o5, ?_⟩
    · rw [h2]
      cases hT : (dRun (Except.ok (some v)) (dInit V K) sched).tasks with
      | nil => simp
      | cons tk rest =>
        rw [hT] at o4
        simp only [List.length_cons] at o4
        have hrest : rest = [] := List.eq_nil_of_length_eq_zero (by omega)
        subst hrest
        cases tk <;> simp [callWeight]
    · intro hall hK
      have hlen : (dRun (Except.ok (some v)) (dInit V K) sched).callers.length
          = K := by
        rw [dRun_callers_length]
        simp [dInit]
      have h0lt : 0 <
          (dRun (Except.ok (some v)) (dInit V K) sched).callers.length := by
        rw [hlen]
        exact hK
      obtain ⟨c, hc0⟩ : ∃ c,
          (dRun (Except.ok (some v)) (dInit V K) sched).callers[0]? =
            some c :=
        ⟨_, List.getElem?_eq_some.mpr ⟨h0lt, rfl⟩⟩
      have hcdone := hall c (List.getElem?_mem hc0)
      cases c with
      | start => exact absurd hcdone (by simp [DCaller.isDone])
      | waitingOn t2 => exact absurd hcdone (by simp [DCaller.isDone])
      | done r2 =>
        obtain ⟨t2, r3, ht2⟩ := o6 0 r2 hc0
        have hlt2 := (List.getElem?_eq_some.mp ht2).1
        have hlen1 : (dRun (Except.ok (some v)) (dInit V K) sched).tasks.length
            = 1 := by omega
        obtain ⟨tk1, hT⟩ := List.length_eq_one.mp hlen1
        rw [h2, hT]
        rw [hT] at ht2
        have ht20 : t2 = 0 := by
          rw [hT] at hlt2
          simp at hlt2
          omega
        subst ht20
        rw [List.getElem?_cons_zero] at ht2
        injection ht2 with ht3
        rw [ht3]
        rfl

/-- C1 amended-theorem witness: two concurrent callers of the
individual-indicator fetch under a concrete interleaving — one upstream
call, both callers receive the identical value, the registry entry deleted
exactly once. -/
theorem C1_indicator_single_flight_witness :
    (dRun (Except.ok (some 42)) (dInit ℕ 2)
      [.caller 0, .caller 1, .task 0, .task 0, .caller 0,
        .caller 1]).upstreamCalls = 1 ∧
    (dRun (Except.ok (some 42)) (dInit ℕ 2)
      [.caller 0, .caller 1, .task 0, .task 0, .caller 0,
        .caller 1]).registryDeletes =
      ((dRun (Except.ok (some 42)) (dInit ℕ 2)
        [.caller 0, .caller 1, .task 0, .task 0, .caller 0,
          .caller 1]).tasks.filter (fun tk => tk.isSettled)).length ∧
    (∀ (i : ℕ) (r2 : Except Unit (Option ℕ)),
      (dRun (Except.ok (some 42)) (dInit ℕ 2)
        [.caller 0, .caller 1, .task 0, .task 0, .caller 0,
          .caller 1]).callers[i]? = some (DCaller.done r2) →
      r2 = Except.ok (some 42)) := by
  have h := C1_indicator_single_flight ℕ (Except.ok (some 42)) 2
    [.caller 0, .caller 1, .task 0, .task 0, .caller 0, .caller 1]
  have h2 := h.2.2 42 rfl
  exact ⟨h2.2.2.2 (by decide) (by decide), h.1, h2.2.2.1⟩

end StockAnalyst
